import Mathlib

/-!
# Base-object synchronisation core of beignet (`src/runtime/cl_base_object.c`)

A shallow embedding of the ownership protocol of `cl_base_object.c`:

* the record `_cl_base_object` and the single-object operations
  `cl_object_destroy_base`, `cl_object_take_ownership`,
  `cl_object_release_ownership`;
* the loop of `cl_object_take_multi_ownership` as a program-counter machine
  whose steps are the individual acquire / release calls, interleaved with the
  calls of other threads by an explicit schedule;
* the lifecycle operations `cl_object_init_base`, `cl_object_wait_on_cond` and
  `cl_object_notify_cond`;
* a system of two threads that run the multi-acquire machine on the same two
  objects in opposite orders.

Conventions.

* `assert` is fatal: an operation whose assertion fails yields `Outcome.fatal`
  carrying the object as it was when the process aborted.
* `pthread_mutex_lock` / `pthread_mutex_unlock` bracket the body of every
  operation (or the caller already holds the mutex, `withlock`), so each call is
  one atomic step on the object; the mutex itself is not a field of the model.
* A thread suspended in `pthread_cond_wait` yields `Outcome.blocked`; its
  re-check of the loop condition after a wake-up is a separate step
  (`cl_object_take_ownership_wake`).
-/

set_option linter.unusedVariables false

namespace Beignet

/-! ## Data model -/

/-- Thread identities (`pthread_t`, an unsigned 64-bit integer on Linux). -/
abbrev pthread_t := Nat

/-- The sentinel for "no owner", `static pthread_t invalid_thread_id = -1;`
(line 22), i.e. `-1` converted to the unsigned type. -/
def invalid_thread_id : pthread_t := 2 ^ 64 - 1

/-- Identity of thread ids (`pthread_equal`). -/
def pthread_equal (a b : pthread_t) : Bool := a == b

/-- The type `cl_bool` of the flag `withlock`. -/
abbrev cl_bool := Nat

/-- The constant `CL_FALSE`. -/
def CL_FALSE : cl_bool := 0

/-- The constant `CL_TRUE`. -/
def CL_TRUE : cl_bool := 1

/-- Modelled from the spec: the declaration of `list_node` (header not among
the sources). The link is the membership state of the object in at most one
parent collection: detached or attached. -/
inductive list_node where
  | detached
  | attached
  deriving DecidableEq, Repr

/-- Modelled from the spec: `list_node_out_of_list` (header not among the
sources) tells whether the link is detached. -/
def list_node_out_of_list (node : list_node) : Bool :=
  match node with
  | .detached => true
  | .attached => false

/-- Modelled from the spec: the declaration of `struct _cl_base_object` (header
not among the sources), with the fields that `cl_base_object.c` reads and
writes: dispatch capability, validity tag (`magic`), reference count, link,
owner. The mutex and the condition variable carry no data of their own (see
the conventions). -/
structure _cl_base_object where
  dispatch : Nat
  magic : Nat
  ref : Int
  node : list_node
  owner : pthread_t
  deriving DecidableEq, Repr

/-- Modelled from the spec: the constant `CL_OBJECT_INVALID_MAGIC` (header not
among the sources), the value the validity tag takes when the object is dead.
No proof below depends on the particular number. -/
def CL_OBJECT_INVALID_MAGIC : Nat := 0xFEFEFEFEFEFEFEFE

/-- Modelled from the spec: the macro `CL_OBJECT_IS_VALID` (header not among
the sources): the validity tag is live, i.e. not the dead marker that
`cl_object_destroy_base` writes. -/
def CL_OBJECT_IS_VALID (obj : _cl_base_object) : Bool :=
  obj.magic != CL_OBJECT_INVALID_MAGIC

/-- Modelled from the spec: the macro `CL_OBJECT_GET_REF` (header not among the
sources) reads the reference count. -/
def CL_OBJECT_GET_REF (obj : _cl_base_object) : Int := obj.ref

/-- What a call on one object comes to: it returned `v` leaving the object as
`obj`, it is suspended in `pthread_cond_wait`, or an assertion failed. -/
inductive Outcome (α : Type) where
  | ret (obj : _cl_base_object) (v : α)
  | blocked (obj : _cl_base_object)
  | fatal (obj : _cl_base_object)
  deriving DecidableEq, Repr

/-! ## Single-object operations -/

/-- The function `cl_object_destroy_base` (lines 36-63): four guarded
`assert(0)`, then the tag is set to the dead marker. -/
def cl_object_destroy_base (obj : _cl_base_object) : Outcome Unit :=
  let ref := CL_OBJECT_GET_REF obj
  if ref != 0 then .fatal obj
  else if !CL_OBJECT_IS_VALID obj then .fatal obj
  else if obj.owner != invalid_thread_id then .fatal obj
  else if !list_node_out_of_list obj.node then .fatal obj
  else .ret { obj with magic := CL_OBJECT_INVALID_MAGIC } ()

/-- The function `cl_object_take_ownership` (lines 65-107) from its entry up to
its return or its first `pthread_cond_wait`. `self` is `pthread_self()`. -/
def cl_object_take_ownership (obj : _cl_base_object) (self : pthread_t)
    (wait : Int) (withlock : cl_bool) : Outcome Int :=
  if !CL_OBJECT_IS_VALID obj then .fatal obj
  else if pthread_equal obj.owner self then .ret obj 1
  else if pthread_equal obj.owner invalid_thread_id then
    .ret { obj with owner := self } 1
  else if wait == 0 then .ret obj 0
  else .blocked obj

/-- The loop of lines 97-106 when `pthread_cond_wait` returns: the condition is
tested again; the thread goes back to waiting, or claims the object and
returns 1. -/
def cl_object_take_ownership_wake (obj : _cl_base_object) (self : pthread_t)
    (withlock : cl_bool) : Outcome Int :=
  if !pthread_equal obj.owner invalid_thread_id then .blocked obj
  else .ret { obj with owner := self } 1

/-- The function `cl_object_release_ownership` (lines 109-123). -/
def cl_object_release_ownership (obj : _cl_base_object) (self : pthread_t)
    (withlock : cl_bool) : Outcome Unit :=
  if !CL_OBJECT_IS_VALID obj then .fatal obj
  else if !(pthread_equal self obj.owner || pthread_equal obj.owner invalid_thread_id) then
    .fatal obj
  else .ret { obj with owner := invalid_thread_id } ()

/-- The object is owned by a thread other than `self`. -/
def owned_by_other (obj : _cl_base_object) (self : pthread_t) : Prop :=
  obj.owner ≠ self ∧ obj.owner ≠ invalid_thread_id

instance (obj : _cl_base_object) (self : pthread_t) : Decidable (owned_by_other obj self) := by
  unfold owned_by_other; infer_instance

/-- The four preconditions of a successful destroy. -/
def destroyable (obj : _cl_base_object) : Prop :=
  CL_OBJECT_GET_REF obj = 0 ∧ CL_OBJECT_IS_VALID obj = true ∧
    obj.owner = invalid_thread_id ∧ list_node_out_of_list obj.node = true

instance (obj : _cl_base_object) : Decidable (destroyable obj) := by
  unfold destroyable; infer_instance

/-- Consecutive `cl_object_take_ownership` calls by one thread, one for
each `(wait, withlock)` of the list; the object after the calls and the values
returned, or `none` as soon as a call does not return. -/
def take_ownership_repeat (obj : _cl_base_object) (self : pthread_t) :
    List (Int × cl_bool) → Option (_cl_base_object × List Int)
  | [] => some (obj, [])
  | (wait, withlock) :: rest =>
    match cl_object_take_ownership obj self wait withlock with
    | .ret obj1 r =>
      match take_ownership_repeat obj1 self rest with
      | some (obj2, rs) => some (obj2, r :: rs)
      | none => none
    | _ => none

/-! ## Mutual exclusion on one object: interleavings of calls -/

/-- One atomic step of some thread on the object: a call of
`cl_object_take_ownership`, the re-check of a thread woken inside it, or a call
of `cl_object_release_ownership`. -/
inductive OwnEvent where
  | take (t : pthread_t) (wait : Int) (withlock : cl_bool)
  | wake (t : pthread_t) (withlock : cl_bool)
  | release (t : pthread_t) (withlock : cl_bool)
  deriving DecidableEq, Repr

/-- The thread that performs the step. -/
def OwnEvent.thread : OwnEvent → pthread_t
  | .take t _ _ => t
  | .wake t _ => t
  | .release t _ => t

/-- One object together with the bookkeeping of an observer: `holders` are the
threads whose acquire returned 1 and that have not called release since,
`waiters` the threads suspended inside a blocking acquire, `crashed` tells that
an assertion has aborted the process. -/
structure Monitor where
  obj : _cl_base_object
  holders : List pthread_t
  waiters : List pthread_t
  crashed : Bool
  deriving DecidableEq, Repr

/-- The observer's view before any call. -/
def Monitor.start (obj : _cl_base_object) : Monitor :=
  { obj := obj, holders := [], waiters := [], crashed := false }

/-- The effect of one step; nothing happens after the process has aborted, and
a wake-up concerns only a thread that is suspended. -/
def Monitor.step (m : Monitor) (e : OwnEvent) : Monitor :=
  if m.crashed then m
  else
    match e with
    | .take t wait withlock =>
      match cl_object_take_ownership m.obj t wait withlock with
      | .ret o r =>
        if r == 1 then { m with obj := o, holders := t :: m.holders }
        else { m with obj := o }
      | .blocked o => { m with obj := o, waiters := t :: m.waiters }
      | .fatal _ => { m with crashed := true }
    | .wake t withlock =>
      if t ∈ m.waiters then
        match cl_object_take_ownership_wake m.obj t withlock with
        | .ret o _ => { m with obj := o, holders := t :: m.holders, waiters := m.waiters.erase t }
        | .blocked o => { m with obj := o }
        | .fatal _ => { m with crashed := true }
      else m
    | .release t withlock =>
      match cl_object_release_ownership m.obj t withlock with
      | .ret o _ => { m with obj := o, holders := m.holders.filter (fun a => a != t) }
      | .blocked o => { m with obj := o }
      | .fatal _ => { m with crashed := true }

/-- An interleaving: the steps in the order the mutex serialises them. -/
def Monitor.run (m : Monitor) (es : List OwnEvent) : Monitor :=
  es.foldl Monitor.step m

/-! ## `cl_object_take_multi_ownership` as a step machine -/

/-- Memory: the object at each address. -/
abbrev Heap := Nat → _cl_base_object

/-- Write the object at address `p`. -/
def Heap.store (h : Heap) (p : Nat) (o : _cl_base_object) : Heap :=
  fun q => if q = p then o else h q

/-- The assignment `ownships[i] = v`. -/
def set_ownship (ownships : Nat → Int) (i : Nat) (v : Int) : Nat → Int :=
  fun k => if k = i then v else ownships k

/-- The arguments of a call of `cl_object_take_multi_ownership`, with the
calling thread `self`. `obj` is the array of object addresses. -/
structure MultiCall where
  self : pthread_t
  obj : List Nat
  obj_num : Int
  wait : Int
  deriving DecidableEq, Repr

/-- Where the calling thread stands inside `cl_object_take_multi_ownership`:
* `scan i`: in the `for` loop of line 148, about to test `i < obj_num`;
* `release i j`: in the release loop of line 163 at index `j`, the scan having
  failed at index `i`;
* `acquire i`: the release loop is over, about to execute lines 170-172;
* `waiting i`: suspended inside the blocking acquire of line 172;
* `returned r`: the call has returned `r`;
* `aborted`: an assertion of the call has failed. -/
inductive Pc where
  | scan (i : Nat)
  | release (i j : Nat)
  | acquire (i : Nat)
  | waiting (i : Nat)
  | returned (r : Int)
  | aborted
  deriving DecidableEq, Repr

/-- The memory, the locals of the call (`ownships` and the program point), and
whether an assertion in another thread has aborted the process. -/
structure World where
  heap : Heap
  ownships : Nat → Int
  pc : Pc
  crashed : Bool

/-- Lines 144-147: the bookkeeping array is allocated zeroed and asserted to be
non-null (`alloc_ok` tells whether `CL_CALLOC` succeeded), then the first scan
starts. -/
def cl_object_take_multi_ownership_enter (alloc_ok : Bool) (h : Heap) : World :=
  { heap := h, ownships := fun _ => 0,
    pc := if alloc_ok then .scan 0 else .aborted, crashed := false }

/-- Lines 154-162, after the `for` loop was left with index `i`. -/
def after_scan (c : MultiCall) (w : World) (i : Nat) : World :=
  if (i : Int) == c.obj_num then { w with pc := .returned 1 }
  else if c.wait == 0 then { w with pc := .returned 0 }
  else { w with pc := .release i 0 }

/-- One atomic step of the calling thread inside
`cl_object_take_multi_ownership` (lines 147-175): at most one call of
`cl_object_take_ownership` or `cl_object_release_ownership`, with the local
bookkeeping around it. -/
def cl_object_take_multi_ownership_step (c : MultiCall) (w : World) : World :=
  match w.pc with
  | .scan i =>
    if (i : Int) < c.obj_num then
      match cl_object_take_ownership (w.heap (c.obj.getD i 0)) c.self 0 CL_FALSE with
      | .ret o r =>
        let w1 : World :=
          { w with heap := w.heap.store (c.obj.getD i 0) o,
                   ownships := set_ownship w.ownships i r }
        if r == 0 then after_scan c w1 i
        else { w1 with pc := .scan (i + 1) }
      | .blocked _ => w -- not reached: a non-blocking acquire never suspends
      | .fatal _ => { w with pc := .aborted }
    else after_scan c w i
  | .release i j =>
    if (j : Int) < c.obj_num then
      if w.ownships j == 1 then
        match cl_object_release_ownership (w.heap (c.obj.getD j 0)) c.self CL_FALSE with
        | .ret o _ =>
          { w with heap := w.heap.store (c.obj.getD j 0) o,
                   ownships := set_ownship w.ownships j 0,
                   pc := .release i (j + 1) }
        | .blocked _ => w
        | .fatal _ => { w with pc := .aborted }
      else { w with pc := .release i (j + 1) }
    else { w with pc := .acquire i }
  | .acquire i =>
    if (i : Int) < c.obj_num then
      match cl_object_take_ownership (w.heap (c.obj.getD i 0)) c.self 1 CL_FALSE with
      | .ret o _ =>
        { w with heap := w.heap.store (c.obj.getD i 0) o,
                 ownships := set_ownship w.ownships i 1,
                 pc := .scan 0 }
      | .blocked _ => { w with pc := .waiting i }
      | .fatal _ => { w with pc := .aborted }
    else { w with pc := .aborted }
  | .waiting i =>
    match cl_object_take_ownership_wake (w.heap (c.obj.getD i 0)) c.self CL_FALSE with
    | .ret o _ =>
      { w with heap := w.heap.store (c.obj.getD i 0) o,
               ownships := set_ownship w.ownships i 1,
               pc := .scan 0 }
    | .blocked _ => w
    | .fatal _ => { w with pc := .aborted }
  | .returned _ => w
  | .aborted => w

/-- A step of the schedule: the calling thread advances by one step, or another
thread `t` calls `cl_object_take_ownership` / `cl_object_release_ownership` on
the object at address `p`. (The re-check of another thread woken inside a
blocking acquire changes the object exactly as a fresh attempt does once the
owner is none, so it needs no event of its own.) -/
inductive Event where
  | caller
  | take (t : pthread_t) (p : Nat) (wait : Int) (withlock : cl_bool)
  | release (t : pthread_t) (p : Nat) (withlock : cl_bool)
  deriving DecidableEq, Repr

/-- The step is the caller's own, or that of a thread other than `self`. -/
def Event.foreign (self : pthread_t) : Event → Prop
  | .caller => True
  | .take t _ _ _ => t ≠ self
  | .release t _ _ => t ≠ self

instance (self : pthread_t) (e : Event) : Decidable (Event.foreign self e) := by
  cases e <;> unfold Event.foreign <;> infer_instance

/-- The process has aborted: an assertion failed in the call or elsewhere. -/
def World.halted (w : World) : Bool :=
  w.crashed || (w.pc == Pc.aborted)

/-- The effect of one step of the schedule; nothing happens once the process
has aborted. -/
def World.step (c : MultiCall) (w : World) (e : Event) : World :=
  if w.halted then w
  else
    match e with
    | .caller => cl_object_take_multi_ownership_step c w
    | .take t p wait withlock =>
      match cl_object_take_ownership (w.heap p) t wait withlock with
      | .ret o _ => { w with heap := w.heap.store p o }
      | .blocked _ => w
      | .fatal _ => { w with crashed := true }
    | .release t p withlock =>
      match cl_object_release_ownership (w.heap p) t withlock with
      | .ret o _ => { w with heap := w.heap.store p o }
      | .blocked _ => w
      | .fatal _ => { w with crashed := true }

/-- A whole schedule, step after step. -/
def World.run (c : MultiCall) (w : World) (es : List Event) : World :=
  es.foldl (World.step c) w

/-- The call from its entry under the schedule `es`. -/
def cl_object_take_multi_ownership (c : MultiCall) (alloc_ok : Bool) (h : Heap)
    (es : List Event) : World :=
  World.run c (cl_object_take_multi_ownership_enter alloc_ok h) es

/-- The calling thread owns the object at address `p`. -/
def owns (w : World) (self : pthread_t) (p : Nat) : Prop :=
  (w.heap p).owner = self

instance (w : World) (self : pthread_t) (p : Nat) : Decidable (owns w self p) := by
  unfold owns; infer_instance

/-- A memory for examples: a live, detached object with reference count 1 at
every address, owned as `owner` says. -/
def heap_of (owner : Nat → pthread_t) : Heap :=
  fun p => { dispatch := 0, magic := 1, ref := 1, node := .detached, owner := owner p }


/-- What the observer's bookkeeping and the object agree on: every holder is
the recorded owner and a real thread, and the object is live as soon as some
thread holds it or waits for it. -/
def Monitor.consistent (m : Monitor) : Prop :=
  (∀ a ∈ m.holders, m.obj.owner = a ∧ a ≠ invalid_thread_id) ∧
  (∀ a, a ∈ m.holders ∨ a ∈ m.waiters → CL_OBJECT_IS_VALID m.obj = true)

/-! ## Invariants of the multi-acquire machine -/

/-- Every listed object that the caller owns in memory `h` either was owned by
the caller in the memory `h0` of the call's entry, or has an index `k ≥ lo`
in the list with `ownships[k] = 1`. -/
def tracked (c : MultiCall) (h0 h : Heap) (ownships : Nat → Int) (lo : Nat) : Prop :=
  ∀ p ∈ c.obj, (h p).owner = c.self →
    (h0 p).owner = c.self ∨
    ∃ k, lo ≤ k ∧ k < c.obj.length ∧ c.obj.getD k 0 = p ∧ ownships k = 1

/-- The caller owns the objects at the indices below `i`. -/
def owned_below (c : MultiCall) (h : Heap) (i : Nat) : Prop :=
  ∀ k, k < i → k < c.obj.length → (h (c.obj.getD k 0)).owner = c.self

/-- The invariant of the call, by program point; `h0` is the memory at entry. -/
def multi_inv (c : MultiCall) (h0 : Heap) (w : World) : Prop :=
  match w.pc with
  | .scan i => tracked c h0 w.heap w.ownships 0 ∧ owned_below c w.heap i
  | .release _ j => tracked c h0 w.heap w.ownships j
  | .acquire _ => tracked c h0 w.heap w.ownships c.obj.length
  | .waiting i => tracked c h0 w.heap w.ownships c.obj.length ∧ i < c.obj.length
  | .returned r => r = 1 → owned_below c w.heap c.obj.length
  | .aborted => True

/-! ## Lifecycle and condition pass-through -/

/-- The function `cl_object_init_base` (lines 24-34). Modelled from the spec:
the macro `SET_ICD` (header not among the sources) binds the dispatch
capability, whose table address is the parameter `icd`; `list_node_init`
(header not among the sources) marks the link detached. -/
def cl_object_init_base (obj : _cl_base_object) (magic : Nat) (icd : Nat) :
    _cl_base_object :=
  { obj with magic := magic, ref := 1, dispatch := icd,
             owner := invalid_thread_id, node := list_node.detached }

/-- The function `cl_object_wait_on_cond` (lines 125-130): the assertion, then
the thread is suspended in `pthread_cond_wait`. -/
def cl_object_wait_on_cond (obj : _cl_base_object) : Outcome Unit :=
  if !CL_OBJECT_IS_VALID obj then .fatal obj
  else .blocked obj

/-- The function `cl_object_notify_cond` (lines 132-137): the assertion, then
the broadcast, which writes no field. -/
def cl_object_notify_cond (obj : _cl_base_object) : Outcome Unit :=
  if !CL_OBJECT_IS_VALID obj then .fatal obj
  else .ret obj ()

/-- The object a call leaves behind, whatever the call came to. -/
def Outcome.after {α : Type} : Outcome α → _cl_base_object
  | .ret o _ => o
  | .blocked o => o
  | .fatal o => o

/-- The two objects agree on every field but the owner: dispatch, tag,
reference count and link. -/
def same_but_owner (a b : _cl_base_object) : Prop :=
  a.dispatch = b.dispatch ∧ a.magic = b.magic ∧ a.ref = b.ref ∧ a.node = b.node

instance (a b : _cl_base_object) : Decidable (same_but_owner a b) := by
  unfold same_but_owner; infer_instance

/-- The indices a program point carries are within the list. -/
def pc_in_range (c : MultiCall) (w : World) : Prop :=
  match w.pc with
  | .scan i => i ≤ c.obj.length
  | .release i _ => i < c.obj.length
  | .acquire i => i < c.obj.length
  | .waiting i => i < c.obj.length
  | .returned _ => True
  | .aborted => True

/-- The object is unowned or owned by `self`: a non-blocking acquire by `self`
succeeds on it. -/
def available (obj : _cl_base_object) (self : pthread_t) : Prop :=
  obj.owner = invalid_thread_id ∨ obj.owner = self

instance (obj : _cl_base_object) (self : pthread_t) : Decidable (available obj self) := by
  unfold available; infer_instance

/-- The memory once a scan that started in memory `h` has acquired the objects
at the indices below `m`. -/
def scan_heap (c : MultiCall) (h : Heap) : Nat → Heap
  | 0 => h
  | m + 1 =>
    (scan_heap c h m).store (c.obj.getD m 0)
      { (scan_heap c h m) (c.obj.getD m 0) with owner := c.self }

/-- The bookkeeping array once the scan has set the flags below `m`. -/
def scan_flags (ownships : Nat → Int) : Nat → (Nat → Int)
  | 0 => ownships
  | m + 1 => set_ownship (scan_flags ownships m) m 1

/-- Every flag set at an index from `lo` on belongs to an object the caller
owns. -/
def flags_owned (c : MultiCall) (h : Heap) (ownships : Nat → Int) (lo : Nat) : Prop :=
  ∀ k, lo ≤ k → k < c.obj.length → ownships k = 1 → (h (c.obj.getD k 0)).owner = c.self

/-- No flag is set at an index below `hi`. -/
def flags_clear (c : MultiCall) (ownships : Nat → Int) (hi : Nat) : Prop :=
  ∀ k, k < hi → k < c.obj.length → ownships k ≠ 1

/-- The invariant that keeps the assertions of the call from failing: the
listed objects are live, the indices are within the list, and the flags agree
with the ownership; the program point is never `aborted`. -/
def multi_safe (c : MultiCall) (w : World) : Prop :=
  (∀ p ∈ c.obj, CL_OBJECT_IS_VALID (w.heap p) = true) ∧
  match w.pc with
  | .scan i => i ≤ c.obj.length ∧ flags_owned c w.heap w.ownships 0
  | .release i j =>
    i < c.obj.length ∧ flags_owned c w.heap w.ownships j ∧ flags_clear c w.ownships j
  | .acquire i => i < c.obj.length ∧ flags_clear c w.ownships c.obj.length
  | .waiting i => i < c.obj.length ∧ flags_clear c w.ownships c.obj.length
  | .returned _ => True
  | .aborted => False

/-! ## Two threads asking for the same two objects in opposite orders -/

/-- The locals of one of the two threads: the flags of the indices 0 and 1 of
its bookkeeping array, its program point, and how many of the listed objects it
has released after its call returned. -/
structure Frame where
  own0 : Int
  own1 : Int
  pc : Pc
  post : Nat
  deriving DecidableEq, Repr

/-- The bookkeeping array of a frame. -/
def Frame.ownships (f : Frame) : Nat → Int :=
  fun k => if k = 0 then f.own0 else if k = 1 then f.own1 else 0

/-- The thread is through: its call has returned 1 and it has released both
objects. -/
def Frame.finished (f : Frame) : Prop :=
  f.pc = Pc.returned 1 ∧ f.post = 2

instance (f : Frame) : Decidable f.finished := by
  unfold Frame.finished; infer_instance

/-- The call of the thread has returned. -/
def Frame.has_returned (f : Frame) : Bool :=
  match f.pc with
  | .returned _ => true
  | _ => false

/-- The object found at the addresses that hold neither X nor Y. -/
def no_object : _cl_base_object :=
  { dispatch := 0, magic := CL_OBJECT_INVALID_MAGIC, ref := 0, node := .detached,
    owner := invalid_thread_id }

/-- The memory holding object `x` at address 0 and object `y` at address 1. -/
def heap_xy (x y : _cl_base_object) : Heap :=
  fun p => if p = 0 then x else if p = 1 then y else no_object

/-- The call of thread A: blocking, on the list X, Y. -/
def call_A (a : pthread_t) : MultiCall := ⟨a, [0, 1], 2, 1⟩

/-- The call of thread B: blocking, on the list Y, X. -/
def call_B (b : pthread_t) : MultiCall := ⟨b, [1, 0], 2, 1⟩

/-- One step of a thread whose call is `c`: inside the call, a step of
`cl_object_take_multi_ownership`; once the call has returned 1, the release of
the next listed object through `cl_object_release_ownership`; nothing once both
objects are released. -/
def thread_step (c : MultiCall) (h : Heap) (f : Frame) : Heap × Frame :=
  match f.pc with
  | .returned r =>
    if r == 1 && decide (f.post < 2) then
      match cl_object_release_ownership (h (c.obj.getD f.post 0)) c.self CL_FALSE with
      | .ret o _ => (h.store (c.obj.getD f.post 0) o, { f with post := f.post + 1 })
      | .blocked _ => (h, f)
      | .fatal _ => (h, { f with pc := .aborted })
    else (h, f)
  | _ =>
    (( cl_object_take_multi_ownership_step c ⟨h, f.ownships, f.pc, false⟩).heap,
     { own0 := (cl_object_take_multi_ownership_step c ⟨h, f.ownships, f.pc, false⟩).ownships 0,
       own1 := (cl_object_take_multi_ownership_step c ⟨h, f.ownships, f.pc, false⟩).ownships 1,
       pc := (cl_object_take_multi_ownership_step c ⟨h, f.ownships, f.pc, false⟩).pc,
       post := f.post })

/-- The two objects and the two threads. -/
structure Duo where
  x : _cl_base_object
  y : _cl_base_object
  a : Frame
  b : Frame
  deriving DecidableEq, Repr

/-- The memory of the two-thread system. -/
def Duo.heap (s : Duo) : Heap := heap_xy s.x s.y

/-- Which of the two threads takes the next step. -/
inductive Who where
  | A
  | B
  deriving DecidableEq, Repr

/-- An assertion has failed in one of the two threads. -/
def Duo.halted (s : Duo) : Bool :=
  (s.a.pc == Pc.aborted) || (s.b.pc == Pc.aborted)

/-- One step of the system: the chosen thread advances; nothing happens once
the process has aborted. -/
def Duo.step (a b : pthread_t) (s : Duo) (t : Who) : Duo :=
  if s.halted then s
  else
    match t with
    | .A =>
      { x := (thread_step (call_A a) s.heap s.a).1 0,
        y := (thread_step (call_A a) s.heap s.a).1 1,
        a := (thread_step (call_A a) s.heap s.a).2,
        b := s.b }
    | .B =>
      { x := (thread_step (call_B b) s.heap s.b).1 0,
        y := (thread_step (call_B b) s.heap s.b).1 1,
        a := s.a,
        b := (thread_step (call_B b) s.heap s.b).2 }

/-- An interleaving of the two threads. -/
def Duo.run (a b : pthread_t) (s : Duo) (ts : List Who) : Duo :=
  ts.foldl (Duo.step a b) s

/-- Both calls have just been entered, their bookkeeping arrays allocated. -/
def Duo.start (x y : _cl_base_object) : Duo :=
  { x := x, y := y, a := ⟨0, 0, .scan 0, 0⟩, b := ⟨0, 0, .scan 0, 0⟩ }

/-- One round of the strictly alternating schedule: a step of A, then a step
of B. -/
def Duo.round (a b : pthread_t) (s : Duo) : Duo :=
  Duo.step a b (Duo.step a b s Who.A) Who.B

/-- Memory `h1` comes from memory `h` by at most one write of an owner made
inside the call `c`: the caller or none is written over none or the caller, at
an address taken from the list. -/
def owner_write (c : MultiCall) (h h1 : Heap) : Prop :=
  h1 = h ∨
  ∃ k t, h1 = h.store (c.obj.getD k 0) { h (c.obj.getD k 0) with owner := t } ∧
    (t = c.self ∨ t = invalid_thread_id) ∧ available (h (c.obj.getD k 0)) c.self

/-- Every object is unowned or owned by one of the two threads. -/
def own_dom (a b : pthread_t) (h : Heap) : Prop :=
  ∀ p, (h p).owner = invalid_thread_id ∨ (h p).owner = a ∨ (h p).owner = b

/-- The call is one of the two calls of the system: blocking, on the two
objects in one of the two orders, by a real thread. -/
def duo_call (c : MultiCall) : Prop :=
  (c.obj = [0, 1] ∨ c.obj = [1, 0]) ∧ c.obj_num = 2 ∧ c.wait = 1 ∧
    c.self ≠ invalid_thread_id

/-- The invariant of one thread of the system: the assertions are safe; while
the call runs, the thread owns only what its flags record; once the call has
returned it has returned 1, and the thread owns exactly the listed objects it
has not released yet. -/
def thread_inv (c : MultiCall) (h : Heap) (f : Frame) : Prop :=
  multi_safe c ⟨h, f.ownships, f.pc, false⟩ ∧
  (∀ r, f.pc = Pc.returned r →
    r = 1 ∧ f.post ≤ 2 ∧
    ∀ k, k < 2 → ((h (c.obj.getD k 0)).owner = c.self ↔ f.post ≤ k)) ∧
  ((∀ r, f.pc ≠ Pc.returned r) →
    f.post = 0 ∧ multi_inv c (heap_xy no_object no_object) ⟨h, f.ownships, f.pc, false⟩)

/-- The invariant of the two-thread system. -/
def Duo.inv (a b : pthread_t) (s : Duo) : Prop :=
  thread_inv (call_A a) s.heap s.a ∧ thread_inv (call_B b) s.heap s.b ∧ own_dom a b s.heap

/-! ## The cases of the single-object operations -/

theorem pthread_equal_iff (a b : pthread_t) : pthread_equal a b = true ↔ a = b := by
  simp [pthread_equal]

theorem valid_iff (obj : _cl_base_object) :
    CL_OBJECT_IS_VALID obj = true ↔ obj.magic ≠ CL_OBJECT_INVALID_MAGIC := by
  simp [CL_OBJECT_IS_VALID]

theorem take_dead (obj : _cl_base_object) (self : pthread_t) (wait : Int) (withlock : cl_bool)
    (h : CL_OBJECT_IS_VALID obj = false) :
    cl_object_take_ownership obj self wait withlock = Outcome.fatal obj := by
  simp [cl_object_take_ownership, h]

theorem take_self (obj : _cl_base_object) (self : pthread_t) (wait : Int) (withlock : cl_bool)
    (h : CL_OBJECT_IS_VALID obj = true) (ho : obj.owner = self) :
    cl_object_take_ownership obj self wait withlock = Outcome.ret obj 1 := by
  have e : pthread_equal obj.owner self = true := (pthread_equal_iff _ _).2 ho
  simp [cl_object_take_ownership, h, e]

theorem take_free (obj : _cl_base_object) (self : pthread_t) (wait : Int) (withlock : cl_bool)
    (h : CL_OBJECT_IS_VALID obj = true) (ho : obj.owner = invalid_thread_id) :
    cl_object_take_ownership obj self wait withlock
      = Outcome.ret { obj with owner := self } 1 := by
  by_cases hs : obj.owner = self
  · rw [take_self obj self wait withlock h hs]
    cases obj
    cases hs
    rfl
  · have e1 : pthread_equal obj.owner self = false := by
      simpa [pthread_equal] using hs
    have e2 : pthread_equal obj.owner invalid_thread_id = true := (pthread_equal_iff _ _).2 ho
    simp [cl_object_take_ownership, h, e1, e2]

theorem take_busy (obj : _cl_base_object) (self : pthread_t) (wait : Int) (withlock : cl_bool)
    (h : CL_OBJECT_IS_VALID obj = true) (ho : owned_by_other obj self) :
    cl_object_take_ownership obj self wait withlock
      = if wait = 0 then Outcome.ret obj 0 else Outcome.blocked obj := by
  have e1 : pthread_equal obj.owner self = false := by
    simpa [pthread_equal] using ho.1
  have e2 : pthread_equal obj.owner invalid_thread_id = false := by
    simpa [pthread_equal] using ho.2
  by_cases hw : wait = 0 <;> simp [cl_object_take_ownership, h, e1, e2, hw]

theorem wake_free (obj : _cl_base_object) (self : pthread_t) (withlock : cl_bool)
    (ho : obj.owner = invalid_thread_id) :
    cl_object_take_ownership_wake obj self withlock
      = Outcome.ret { obj with owner := self } 1 := by
  have e2 : pthread_equal obj.owner invalid_thread_id = true := (pthread_equal_iff _ _).2 ho
  simp [cl_object_take_ownership_wake, e2]

theorem wake_busy (obj : _cl_base_object) (self : pthread_t) (withlock : cl_bool)
    (ho : obj.owner ≠ invalid_thread_id) :
    cl_object_take_ownership_wake obj self withlock = Outcome.blocked obj := by
  have e2 : pthread_equal obj.owner invalid_thread_id = false := by
    simpa [pthread_equal] using ho
  simp [cl_object_take_ownership_wake, e2]

theorem release_dead (obj : _cl_base_object) (self : pthread_t) (withlock : cl_bool)
    (h : CL_OBJECT_IS_VALID obj = false) :
    cl_object_release_ownership obj self withlock = Outcome.fatal obj := by
  simp [cl_object_release_ownership, h]

theorem release_other (obj : _cl_base_object) (self : pthread_t) (withlock : cl_bool)
    (ho : owned_by_other obj self) :
    cl_object_release_ownership obj self withlock = Outcome.fatal obj := by
  have e1 : pthread_equal self obj.owner = false := by
    simpa [pthread_equal] using fun e : self = obj.owner => ho.1 e.symm
  have e2 : pthread_equal obj.owner invalid_thread_id = false := by
    simpa [pthread_equal] using ho.2
  by_cases h : CL_OBJECT_IS_VALID obj = true <;> simp [cl_object_release_ownership, h, e1, e2]

theorem release_ok (obj : _cl_base_object) (self : pthread_t) (withlock : cl_bool)
    (h : CL_OBJECT_IS_VALID obj = true) (ho : ¬ owned_by_other obj self) :
    cl_object_release_ownership obj self withlock
      = Outcome.ret { obj with owner := invalid_thread_id } () := by
  have e : (pthread_equal self obj.owner || pthread_equal obj.owner invalid_thread_id) = true := by
    unfold owned_by_other at ho
    by_cases h1 : obj.owner = self
    · simp [pthread_equal, h1]
    · have h2 : obj.owner = invalid_thread_id := by
        by_contra h2
        exact ho ⟨h1, h2⟩
      simp [pthread_equal, h2]
  simp [cl_object_release_ownership, h, e]

/-- The cases of `cl_object_take_ownership`, by the state of the object. -/
theorem take_cases (obj : _cl_base_object) (self : pthread_t) :
    CL_OBJECT_IS_VALID obj = false ∨
    (CL_OBJECT_IS_VALID obj = true ∧ obj.owner = self) ∨
    (CL_OBJECT_IS_VALID obj = true ∧ obj.owner = invalid_thread_id) ∨
    (CL_OBJECT_IS_VALID obj = true ∧ owned_by_other obj self) := by
  unfold owned_by_other
  by_cases h : CL_OBJECT_IS_VALID obj = true
  · by_cases h1 : obj.owner = self
    · exact Or.inr (Or.inl ⟨h, h1⟩)
    · by_cases h2 : obj.owner = invalid_thread_id
      · exact Or.inr (Or.inr (Or.inl ⟨h, h2⟩))
      · exact Or.inr (Or.inr (Or.inr ⟨h, h1, h2⟩))
  · exact Or.inl (by simpa using h)

theorem with_owner_self (obj : _cl_base_object) :
    ({ obj with owner := obj.owner } : _cl_base_object) = obj := by
  cases obj; rfl

/-! ## Single-object theorems -/

/-- C2: `cl_object_destroy_base` returns exactly when the reference count is 0,
the tag is live, the owner is none and the link is detached; it then leaves the
object with a dead tag and nothing else changed; in every other state it is
fatal and the object, its tag included, is as it was. -/
theorem cl_object_destroy_base_contract (obj : _cl_base_object) :
    ((∃ o, cl_object_destroy_base obj = Outcome.ret o ()) ↔ destroyable obj) ∧
    (∀ o, cl_object_destroy_base obj = Outcome.ret o () →
      CL_OBJECT_IS_VALID o = false ∧ o = { obj with magic := CL_OBJECT_INVALID_MAGIC }) ∧
    (¬ destroyable obj → cl_object_destroy_base obj = Outcome.fatal obj) := by
  have key : cl_object_destroy_base obj =
      if destroyable obj then Outcome.ret { obj with magic := CL_OBJECT_INVALID_MAGIC } ()
      else Outcome.fatal obj := by
    unfold destroyable cl_object_destroy_base
    by_cases h1 : CL_OBJECT_GET_REF obj = 0 <;>
    by_cases h2 : CL_OBJECT_IS_VALID obj = true <;>
    by_cases h3 : obj.owner = invalid_thread_id <;>
    by_cases h4 : list_node_out_of_list obj.node = true <;>
    simp [h1, h2, h3, h4]
  rw [key]
  by_cases hd : destroyable obj
  · simp [hd, CL_OBJECT_IS_VALID]
  · simp [hd]

/-- C3: on a live object `cl_object_take_ownership` returns 0 exactly when
`wait = 0` and the object is owned by a thread other than the caller; a call
that returns 0 leaves the object exactly as it was; the re-check after a
wake-up never returns 0. -/
theorem cl_object_take_ownership_failure (obj : _cl_base_object) (self : pthread_t)
    (wait : Int) (withlock : cl_bool) (hlive : CL_OBJECT_IS_VALID obj = true) :
    ((∃ o, cl_object_take_ownership obj self wait withlock = Outcome.ret o 0) ↔
      (wait = 0 ∧ owned_by_other obj self)) ∧
    (∀ o, cl_object_take_ownership obj self wait withlock = Outcome.ret o 0 → o = obj) ∧
    (∀ o, cl_object_take_ownership_wake obj self withlock ≠ Outcome.ret o 0) := by
  refine ⟨?_, ?_, ?_⟩
  · rcases take_cases obj self with h | ⟨_, h⟩ | ⟨_, h⟩ | ⟨_, h⟩
    · rw [hlive] at h; cases h
    · rw [take_self obj self wait withlock hlive h]
      constructor
      · rintro ⟨o, ho⟩; cases ho
      · rintro ⟨_, h1, _⟩; exact absurd h h1
    · rw [take_free obj self wait withlock hlive h]
      constructor
      · rintro ⟨o, ho⟩; cases ho
      · rintro ⟨_, _, h2⟩; exact absurd h h2
    · rw [take_busy obj self wait withlock hlive h]
      by_cases hw : wait = 0
      · rw [if_pos hw]; exact ⟨fun _ => ⟨hw, h⟩, fun _ => ⟨obj, rfl⟩⟩
      · rw [if_neg hw]
        constructor
        · rintro ⟨o, ho⟩; cases ho
        · rintro ⟨h0, _⟩; exact absurd h0 hw
  · intro o
    rcases take_cases obj self with h | ⟨_, h⟩ | ⟨_, h⟩ | ⟨_, h⟩
    · rw [hlive] at h; cases h
    · rw [take_self obj self wait withlock hlive h]; intro e; cases e
    · rw [take_free obj self wait withlock hlive h]; intro e; cases e
    · rw [take_busy obj self wait withlock hlive h]
      by_cases hw : wait = 0
      · rw [if_pos hw]; intro e; cases e; rfl
      · rw [if_neg hw]; intro e; cases e
  · intro o
    by_cases h : obj.owner = invalid_thread_id
    · rw [wake_free obj self withlock h]; intro e; cases e
    · rw [wake_busy obj self withlock h]; intro e; cases e

/-- Witness of C3: thread 1 tries, without waiting, an object owned by
thread 2. -/
theorem cl_object_take_ownership_failure_witness :
    CL_OBJECT_IS_VALID (heap_of (fun _ => 2) 0) = true ∧
    cl_object_take_ownership (heap_of (fun _ => 2) 0) 1 0 CL_FALSE
      = Outcome.ret (heap_of (fun _ => 2) 0) 0 ∧
    ((∃ o, cl_object_take_ownership (heap_of (fun _ => 2) 0) 1 0 CL_FALSE = Outcome.ret o 0) ↔
      ((0 : Int) = 0 ∧ owned_by_other (heap_of (fun _ => 2) 0) 1)) :=
  ⟨by decide, by decide,
   (cl_object_take_ownership_failure (heap_of (fun _ => 2) 0) 1 0 CL_FALSE (by decide)).1⟩

/-- C7: whenever `cl_object_take_ownership` returns 1, at once or after a
wake-up, the owner is the calling thread on return; on a live unowned object
the call returns 1 and only the owner changes, from none to the caller. -/
theorem cl_object_take_ownership_success (obj : _cl_base_object) (self : pthread_t)
    (wait : Int) (withlock : cl_bool) :
    (∀ o, cl_object_take_ownership obj self wait withlock = Outcome.ret o 1 →
      o.owner = self) ∧
    (∀ o, cl_object_take_ownership_wake obj self withlock = Outcome.ret o 1 →
      o.owner = self) ∧
    (CL_OBJECT_IS_VALID obj = true → obj.owner = invalid_thread_id →
      cl_object_take_ownership obj self wait withlock
        = Outcome.ret { obj with owner := self } 1) := by
  refine ⟨?_, ?_, ?_⟩
  · intro o
    rcases take_cases obj self with h | ⟨hl, h⟩ | ⟨hl, h⟩ | ⟨hl, h⟩
    · rw [take_dead obj self wait withlock h]; intro e; cases e
    · rw [take_self obj self wait withlock hl h]; intro e; cases e; exact h
    · rw [take_free obj self wait withlock hl h]; intro e; cases e; rfl
    · rw [take_busy obj self wait withlock hl h]
      by_cases hw : wait = 0
      · rw [if_pos hw]; intro e; cases e
      · rw [if_neg hw]; intro e; cases e
  · intro o
    by_cases h : obj.owner = invalid_thread_id
    · rw [wake_free obj self withlock h]; intro e; cases e; rfl
    · rw [wake_busy obj self withlock h]; intro e; cases e
  · intro hl h
    exact take_free obj self wait withlock hl h

/-- C8: `cl_object_release_ownership` is fatal exactly when the object is not
live or is owned by a thread other than the caller, and then leaves the object
as it was; in every other case it returns with the owner set to none, which on
an object that was already unowned changes nothing. -/
theorem cl_object_release_ownership_contract (obj : _cl_base_object) (self : pthread_t)
    (withlock : cl_bool) :
    ((∃ o, cl_object_release_ownership obj self withlock = Outcome.fatal o) ↔
      (CL_OBJECT_IS_VALID obj = false ∨ owned_by_other obj self)) ∧
    (∀ o, cl_object_release_ownership obj self withlock = Outcome.fatal o → o = obj) ∧
    (¬ (CL_OBJECT_IS_VALID obj = false ∨ owned_by_other obj self) →
      cl_object_release_ownership obj self withlock
        = Outcome.ret { obj with owner := invalid_thread_id } ()) ∧
    (CL_OBJECT_IS_VALID obj = true → obj.owner = invalid_thread_id →
      cl_object_release_ownership obj self withlock = Outcome.ret obj ()) := by
  have ok : ¬ (CL_OBJECT_IS_VALID obj = false ∨ owned_by_other obj self) →
      cl_object_release_ownership obj self withlock
        = Outcome.ret { obj with owner := invalid_thread_id } () := by
    intro h
    have hl : CL_OBJECT_IS_VALID obj = true := by
      by_contra hl
      exact h (Or.inl (by simpa using hl))
    exact release_ok obj self withlock hl (fun ho => h (Or.inr ho))
  have bad : (CL_OBJECT_IS_VALID obj = false ∨ owned_by_other obj self) →
      cl_object_release_ownership obj self withlock = Outcome.fatal obj := by
    rintro (h | h)
    · exact release_dead obj self withlock h
    · exact release_other obj self withlock h
  refine ⟨?_, ?_, ok, ?_⟩
  · constructor
    · rintro ⟨o, ho⟩
      by_contra hn
      rw [ok hn] at ho
      cases ho
    · intro h
      exact ⟨obj, bad h⟩
  · intro o ho
    by_cases hn : CL_OBJECT_IS_VALID obj = false ∨ owned_by_other obj self
    · rw [bad hn] at ho; cases ho; rfl
    · rw [ok hn] at ho; cases ho
  · intro hl hn
    rw [release_ok obj self withlock hl (fun ho => ho.2 hn)]
    have e : ({ obj with owner := invalid_thread_id } : _cl_base_object) = obj := by
      rw [← hn]
    rw [e]

/-- C5: on a live object owned by thread `T`, any number of further
`cl_object_take_ownership` calls by `T`, blocking or not, all return 1 and
leave the object as it was, and one `cl_object_release_ownership` by `T`
afterwards sets the owner to none, however many calls came before. -/
theorem cl_object_take_ownership_reentry (obj : _cl_base_object) (T : pthread_t)
    (calls : List (Int × cl_bool)) (withlock : cl_bool)
    (hlive : CL_OBJECT_IS_VALID obj = true) (hown : obj.owner = T) :
    take_ownership_repeat obj T calls = some (obj, List.replicate calls.length 1) ∧
    cl_object_release_ownership obj T withlock
      = Outcome.ret { obj with owner := invalid_thread_id } () := by
  constructor
  · induction calls with
    | nil => rfl
    | cons c rest ih =>
      obtain ⟨wait, wl⟩ := c
      simp only [take_ownership_repeat, take_self obj T wait wl hlive hown, ih,
        List.length_cons, List.replicate_succ]
  · exact release_ok obj T withlock hlive (fun ho => ho.1 hown)

/-- Witness of C5: thread 7 owns the object, calls acquire three times (twice
blocking, once with the lock held) and releases once. -/
theorem cl_object_take_ownership_reentry_witness :
    take_ownership_repeat (heap_of (fun _ => 7) 0) 7 [(0, 0), (1, 0), (1, 1)]
      = some (heap_of (fun _ => 7) 0, [1, 1, 1]) ∧
    cl_object_release_ownership (heap_of (fun _ => 7) 0) 7 CL_FALSE
      = Outcome.ret { heap_of (fun _ => 7) 0 with owner := invalid_thread_id } () :=
  cl_object_take_ownership_reentry (heap_of (fun _ => 7) 0) 7 [(0, 0), (1, 0), (1, 1)]
    CL_FALSE (by decide) (by decide)

/-! ## Mutual exclusion on one object -/

theorem Monitor.consistent_claim (m : Monitor) (t : pthread_t) (ws : List pthread_t)
    (hm : m.consistent) (ht : t ≠ invalid_thread_id)
    (hl : CL_OBJECT_IS_VALID m.obj = true) (hfree : m.obj.owner = invalid_thread_id) :
    Monitor.consistent
      { m with obj := { m.obj with owner := t }, holders := t :: m.holders, waiters := ws } := by
  refine ⟨?_, fun _ _ => hl⟩
  intro a ha
  have hat : a = t := by
    rcases List.mem_cons.1 ha with h | h
    · exact h
    · exact absurd ((hm.1 a h).1.symm.trans hfree) (hm.1 a h).2
  subst hat
  exact ⟨rfl, ht⟩

theorem Monitor.consistent_step (m : Monitor) (e : OwnEvent)
    (hm : m.consistent) (he : e.thread ≠ invalid_thread_id) :
    (m.step e).consistent := by
  unfold Monitor.step
  by_cases hc : m.crashed = true
  · rw [if_pos hc]; exact hm
  rw [if_neg hc]
  cases e with
  | take t wait withlock =>
    have ht : t ≠ invalid_thread_id := he
    rcases take_cases m.obj t with h | ⟨hl, h⟩ | ⟨hl, h⟩ | ⟨hl, h⟩
    · simp only [take_dead m.obj t wait withlock h]; exact hm
    · simp only [take_self m.obj t wait withlock hl h]
      refine ⟨?_, fun _ _ => hl⟩
      intro a ha
      rcases List.mem_cons.1 ha with e | e
      · subst e; exact ⟨h, ht⟩
      · exact hm.1 a e
    · simp only [take_free m.obj t wait withlock hl h]
      exact Monitor.consistent_claim m t m.waiters hm ht hl h
    · simp only [take_busy m.obj t wait withlock hl h]
      by_cases hw : wait = 0
      · simp only [if_pos hw]; exact hm
      · simp only [if_neg hw]; exact ⟨hm.1, fun _ _ => hl⟩
  | wake t withlock =>
    have ht : t ≠ invalid_thread_id := he
    by_cases hw : t ∈ m.waiters
    · simp only [if_pos hw]
      have hl : CL_OBJECT_IS_VALID m.obj = true := hm.2 t (Or.inr hw)
      by_cases h : m.obj.owner = invalid_thread_id
      · simp only [wake_free m.obj t withlock h]
        exact Monitor.consistent_claim m t (m.waiters.erase t) hm ht hl h
      · simp only [wake_busy m.obj t withlock h]; exact hm
    · simp only [if_neg hw]; exact hm
  | release t withlock =>
    by_cases hb : CL_OBJECT_IS_VALID m.obj = false ∨ owned_by_other m.obj t
    · have : cl_object_release_ownership m.obj t withlock = Outcome.fatal m.obj := by
        rcases hb with h | h
        · exact release_dead m.obj t withlock h
        · exact release_other m.obj t withlock h
      simp only [this]; exact hm
    · have hl : CL_OBJECT_IS_VALID m.obj = true := by
        by_contra hl
        exact hb (Or.inl (by simpa using hl))
      have hno : ¬ owned_by_other m.obj t := fun ho => hb (Or.inr ho)
      simp only [release_ok m.obj t withlock hl hno]
      refine ⟨?_, fun _ _ => hl⟩
      intro a ha
      have ha2 : a ∈ m.holders ∧ a ≠ t := by
        simpa using ha
      have hoa := hm.1 a ha2.1
      exact absurd ⟨hoa.1.trans_ne ha2.2, by rw [hoa.1]; exact hoa.2⟩ hno

theorem Monitor.consistent_run (es : List OwnEvent) (m : Monitor)
    (hm : m.consistent) (hreal : ∀ e ∈ es, e.thread ≠ invalid_thread_id) :
    (m.run es).consistent := by
  induction es generalizing m with
  | nil => exact hm
  | cons e rest ih =>
    have h1 := Monitor.consistent_step m e hm (hreal e (List.mem_cons_self _ _))
    exact ih (m.step e) h1 (fun x hx => hreal x (List.mem_cons_of_mem _ hx))

/-- C4: in every interleaving of acquire, wake-up and release steps of real
threads on one object, all the threads that hold ownership (their acquire
returned 1 and they have not released) are one and the same thread; that
thread `A` is the recorded owner, and as long as it holds, an acquire by any
other thread `B` does not return 1: it returns 0 without changing the object
when non-blocking, it suspends when blocking, and a wake-up of `B` finds the
object still taken. -/
theorem mutual_exclusion (obj : _cl_base_object) (es : List OwnEvent)
    (hreal : ∀ e ∈ es, e.thread ≠ invalid_thread_id) :
    (∀ a ∈ ((Monitor.start obj).run es).holders,
      ∀ b ∈ ((Monitor.start obj).run es).holders, a = b) ∧
    (∀ A ∈ ((Monitor.start obj).run es).holders,
      ((Monitor.start obj).run es).obj.owner = A ∧
      ∀ B, B ≠ A → ∀ wait withlock,
        cl_object_take_ownership ((Monitor.start obj).run es).obj B wait withlock
          = (if wait = 0 then Outcome.ret ((Monitor.start obj).run es).obj 0
             else Outcome.blocked ((Monitor.start obj).run es).obj) ∧
        cl_object_take_ownership_wake ((Monitor.start obj).run es).obj B withlock
          = Outcome.blocked ((Monitor.start obj).run es).obj) := by
  have h0 : (Monitor.start obj).consistent := by
    constructor
    · intro a ha; cases ha
    · intro a ha; rcases ha with h | h <;> cases h
  have hm := Monitor.consistent_run es (Monitor.start obj) h0 hreal
  refine ⟨fun a ha b hb => (hm.1 a ha).1.symm.trans (hm.1 b hb).1, ?_⟩
  intro A hA
  have hoA := hm.1 A hA
  have hl := hm.2 A (Or.inl hA)
  refine ⟨hoA.1, ?_⟩
  intro B hB wait withlock
  have hbusy : owned_by_other ((Monitor.start obj).run es).obj B :=
    ⟨(by rw [hoA.1]; exact fun e => hB e.symm), (by rw [hoA.1]; exact hoA.2)⟩
  exact ⟨take_busy _ B wait withlock hl hbusy, wake_busy _ B withlock hbusy.2⟩

/-- Witness of C4: thread 1 takes a free object, thread 2 fails without
waiting, then suspends on a blocking acquire and is woken in vain; thread 1 is
the only holder. Thread 1 releases, thread 2 is woken and is the only holder. -/
theorem mutual_exclusion_witness :
    ((Monitor.start (heap_of (fun _ => invalid_thread_id) 0)).run
      [.take 1 0 0, .take 2 0 0, .take 2 1 0, .wake 2 0]).holders = [1] ∧
    ((Monitor.start (heap_of (fun _ => invalid_thread_id) 0)).run
      [.take 1 0 0, .take 2 0 0, .take 2 1 0, .wake 2 0, .release 1 0, .wake 2 0]).holders
        = [2] ∧
    (∀ a ∈ ((Monitor.start (heap_of (fun _ => invalid_thread_id) 0)).run
        [.take 1 0 0, .take 2 0 0, .take 2 1 0, .wake 2 0]).holders,
      ∀ b ∈ ((Monitor.start (heap_of (fun _ => invalid_thread_id) 0)).run
        [.take 1 0 0, .take 2 0 0, .take 2 1 0, .wake 2 0]).holders, a = b) :=
  ⟨by decide, by decide,
   (mutual_exclusion (heap_of (fun _ => invalid_thread_id) 0)
      [.take 1 0 0, .take 2 0 0, .take 2 1 0, .wake 2 0] (by decide)).1⟩

/-! ## Memory and bookkeeping lemmas -/

theorem Heap.store_same (h : Heap) (p : Nat) : h.store p (h p) = h := by
  funext q
  unfold Heap.store
  by_cases e : q = p
  · rw [if_pos e, e]
  · rw [if_neg e]

theorem Heap.store_at (h : Heap) (p : Nat) (o : _cl_base_object) : h.store p o p = o := by
  unfold Heap.store
  rw [if_pos rfl]

theorem Heap.store_other (h : Heap) (p q : Nat) (o : _cl_base_object) (e : q ≠ p) :
    h.store p o q = h q := by
  unfold Heap.store
  rw [if_neg e]

theorem set_ownship_at (f : Nat → Int) (i : Nat) (v : Int) : set_ownship f i v i = v := by
  unfold set_ownship
  rw [if_pos rfl]

theorem set_ownship_other (f : Nat → Int) (i k : Nat) (v : Int) (e : k ≠ i) :
    set_ownship f i v k = f k := by
  unfold set_ownship
  rw [if_neg e]

/-- What a call of `cl_object_take_ownership` by `self` comes to. -/
theorem take_spec (obj : _cl_base_object) (self : pthread_t) (wait : Int) (withlock : cl_bool) :
    cl_object_take_ownership obj self wait withlock = Outcome.fatal obj ∨
    (∃ o, cl_object_take_ownership obj self wait withlock = Outcome.ret o 1 ∧
      o.owner = self) ∨
    (cl_object_take_ownership obj self wait withlock = Outcome.ret obj 0 ∧
      obj.owner ≠ self ∧ wait = 0) ∨
    (cl_object_take_ownership obj self wait withlock = Outcome.blocked obj ∧ wait ≠ 0) := by
  rcases take_cases obj self with h | ⟨hl, h⟩ | ⟨hl, h⟩ | ⟨hl, h⟩
  · exact Or.inl (take_dead obj self wait withlock h)
  · exact Or.inr (Or.inl ⟨obj, take_self obj self wait withlock hl h, h⟩)
  · exact Or.inr (Or.inl ⟨_, take_free obj self wait withlock hl h, rfl⟩)
  · by_cases hw : wait = 0
    · refine Or.inr (Or.inr (Or.inl ⟨?_, h.1, hw⟩))
      rw [take_busy obj self wait withlock hl h, if_pos hw]
    · refine Or.inr (Or.inr (Or.inr ⟨?_, hw⟩))
      rw [take_busy obj self wait withlock hl h, if_neg hw]

/-- What the re-check after a wake-up comes to. -/
theorem wake_spec (obj : _cl_base_object) (self : pthread_t) (withlock : cl_bool) :
    (∃ o, cl_object_take_ownership_wake obj self withlock = Outcome.ret o 1 ∧
      o.owner = self) ∨
    cl_object_take_ownership_wake obj self withlock = Outcome.blocked obj := by
  by_cases h : obj.owner = invalid_thread_id
  · exact Or.inl ⟨_, wake_free obj self withlock h, rfl⟩
  · exact Or.inr (wake_busy obj self withlock h)

/-- What a call of `cl_object_release_ownership` comes to. -/
theorem release_spec (obj : _cl_base_object) (self : pthread_t) (withlock : cl_bool) :
    cl_object_release_ownership obj self withlock = Outcome.fatal obj ∨
    cl_object_release_ownership obj self withlock
      = Outcome.ret { obj with owner := invalid_thread_id } () := by
  by_cases hl : CL_OBJECT_IS_VALID obj = true
  · by_cases ho : owned_by_other obj self
    · exact Or.inl (release_other obj self withlock ho)
    · exact Or.inr (release_ok obj self withlock hl ho)
  · exact Or.inl (release_dead obj self withlock (by simpa using hl))

/-- A step of another thread neither gives an object to `self` nor takes one
from it. -/
theorem take_foreign (obj o : _cl_base_object) (self t : pthread_t) (wait r : Int)
    (withlock : cl_bool) (ht : t ≠ self) (hs : self ≠ invalid_thread_id)
    (h : cl_object_take_ownership obj t wait withlock = Outcome.ret o r) :
    (o.owner = self ↔ obj.owner = self) := by
  rcases take_cases obj t with h1 | ⟨hl, h1⟩ | ⟨hl, h1⟩ | ⟨hl, h1⟩
  · rw [take_dead obj t wait withlock h1] at h; cases h
  · rw [take_self obj t wait withlock hl h1] at h; cases h; exact Iff.rfl
  · rw [take_free obj t wait withlock hl h1] at h
    cases h
    constructor
    · intro e; exact absurd e ht
    · intro e; exact absurd (e.symm.trans h1) hs
  · rw [take_busy obj t wait withlock hl h1] at h
    by_cases hw : wait = 0
    · rw [if_pos hw] at h; cases h; exact Iff.rfl
    · rw [if_neg hw] at h; cases h

theorem release_foreign (obj o : _cl_base_object) (self t : pthread_t)
    (withlock : cl_bool) (ht : t ≠ self) (hs : self ≠ invalid_thread_id)
    (h : cl_object_release_ownership obj t withlock = Outcome.ret o ()) :
    (o.owner = self ↔ obj.owner = self) := by
  by_cases hl : CL_OBJECT_IS_VALID obj = true
  · by_cases ho : owned_by_other obj t
    · rw [release_other obj t withlock ho] at h; cases h
    · rw [release_ok obj t withlock hl ho] at h
      cases h
      constructor
      · intro e; exact absurd e.symm hs
      · intro e
        exfalso
        apply ho
        exact ⟨by rw [e]; exact fun x => ht x.symm, by rw [e]; exact hs⟩
  · rw [release_dead obj t withlock (by simpa using hl)] at h; cases h

/-! ## Preservation of the bookkeeping -/

theorem tracked_claim (c : MultiCall) (h0 h : Heap) (own : Nat → Int) (lo lo1 i : Nat)
    (o : _cl_base_object) (ht : tracked c h0 h own lo1) (hlo : lo ≤ lo1)
    (hi : i < c.obj.length) (hli : lo ≤ i) :
    tracked c h0 (h.store (c.obj.getD i 0) o) (set_ownship own i 1) lo := by
  intro q hq hown
  by_cases e : q = c.obj.getD i 0
  · exact Or.inr ⟨i, hli, hi, e.symm, set_ownship_at own i 1⟩
  · rw [Heap.store_other h _ q o e] at hown
    rcases ht q hq hown with hp | ⟨k, hk1, hk2, hk3, hk4⟩
    · exact Or.inl hp
    · refine Or.inr ⟨k, le_trans hlo hk1, hk2, hk3, ?_⟩
      by_cases eki : k = i
      · rw [eki]; exact set_ownship_at own i 1
      · rw [set_ownship_other own i k 1 eki]; exact hk4

theorem tracked_drop (c : MultiCall) (h0 h : Heap) (own : Nat → Int) (j : Nat)
    (o : _cl_base_object) (ht : tracked c h0 h own j) (v : Int)
    (ho : o.owner ≠ c.self) :
    tracked c h0 (h.store (c.obj.getD j 0) o) (set_ownship own j v) (j + 1) := by
  intro q hq hown
  by_cases e : q = c.obj.getD j 0
  · rw [e, Heap.store_at] at hown
    exact absurd hown ho
  · rw [Heap.store_other h _ q o e] at hown
    rcases ht q hq hown with hp | ⟨k, hk1, hk2, hk3, hk4⟩
    · exact Or.inl hp
    · have hkj : k ≠ j := by
        intro ekj
        apply e
        rw [← hk3, ekj]
      refine Or.inr ⟨k, ?_, hk2, hk3, ?_⟩
      · omega
      · rw [set_ownship_other own j k v hkj]; exact hk4

theorem tracked_skip (c : MultiCall) (h0 h : Heap) (own : Nat → Int) (j : Nat)
    (ht : tracked c h0 h own j) (hj : own j ≠ 1) :
    tracked c h0 h own (j + 1) := by
  intro q hq hown
  rcases ht q hq hown with hp | ⟨k, hk1, hk2, hk3, hk4⟩
  · exact Or.inl hp
  · have hkj : k ≠ j := by
      intro ekj
      rw [ekj] at hk4
      exact hj hk4
    exact Or.inr ⟨k, by omega, hk2, hk3, hk4⟩

theorem tracked_end (c : MultiCall) (h0 h : Heap) (own : Nat → Int) (j lo : Nat)
    (ht : tracked c h0 h own j) (hj : c.obj.length ≤ j) :
    tracked c h0 h own lo := by
  intro q hq hown
  rcases ht q hq hown with hp | ⟨k, hk1, hk2, hk3, hk4⟩
  · exact Or.inl hp
  · omega

theorem tracked_fail (c : MultiCall) (h0 h : Heap) (own : Nat → Int) (i : Nat)
    (ht : tracked c h0 h own 0) (hi : (h (c.obj.getD i 0)).owner ≠ c.self) :
    tracked c h0 h (set_ownship own i 0) 0 := by
  intro q hq hown
  rcases ht q hq hown with hp | ⟨k, hk1, hk2, hk3, hk4⟩
  · exact Or.inl hp
  · have hki : k ≠ i := by
      intro eki
      apply hi
      rw [← eki, hk3]
      exact hown
    exact Or.inr ⟨k, hk1, hk2, hk3, by rw [set_ownship_other own i k 0 hki]; exact hk4⟩

theorem tracked_env (c : MultiCall) (h0 h h1 : Heap) (own : Nat → Int) (lo : Nat)
    (ht : tracked c h0 h own lo)
    (henv : ∀ p, (h1 p).owner = c.self → (h p).owner = c.self) :
    tracked c h0 h1 own lo := by
  intro q hq hown
  exact ht q hq (henv q hown)

theorem owned_below_claim (c : MultiCall) (h : Heap) (i : Nat) (o : _cl_base_object)
    (hp : owned_below c h i) (ho : o.owner = c.self) :
    owned_below c (h.store (c.obj.getD i 0) o) (i + 1) := by
  intro k hk hkl
  by_cases e : c.obj.getD k 0 = c.obj.getD i 0
  · rw [e, Heap.store_at]; exact ho
  · rw [Heap.store_other h _ _ o e]
    have hki : k ≠ i := fun x => e (by rw [x])
    exact hp k (by omega) hkl

theorem owned_below_env (c : MultiCall) (h h1 : Heap) (i : Nat)
    (hp : owned_below c h i)
    (henv : ∀ p, (h p).owner = c.self → (h1 p).owner = c.self) :
    owned_below c h1 i := by
  intro k hk hkl
  exact henv _ (hp k hk hkl)

theorem owned_below_zero (c : MultiCall) (h : Heap) : owned_below c h 0 := by
  intro k hk
  omega

/-! ## The invariant is kept by every step -/

theorem multi_inv_after_scan_fail (c : MultiCall) (h0 : Heap) (w : World) (i : Nat)
    (hnum : c.obj_num = c.obj.length) (hi : i < c.obj.length)
    (ht : tracked c h0 w.heap w.ownships 0) :
    multi_inv c h0 (after_scan c w i) := by
  unfold after_scan
  have hne : ((i : Int) == c.obj_num) = false := by
    rw [hnum]
    simp only [beq_eq_false_iff_ne, ne_eq, Nat.cast_inj]
    omega
  rw [hne]
  by_cases hw : (c.wait == 0) = true
  · simp only [hw, if_true, Bool.false_eq_true, if_false, multi_inv]
    intro h
    cases h
  · simp only [hw, Bool.false_eq_true, if_false, multi_inv]
    exact ht

theorem multi_inv_caller (c : MultiCall) (h0 : Heap) (w : World)
    (hnum : c.obj_num = c.obj.length) (hs : c.self ≠ invalid_thread_id)
    (hw : multi_inv c h0 w) :
    multi_inv c h0 (cl_object_take_multi_ownership_step c w) := by
  obtain ⟨heap, own, pc, cr⟩ := w
  cases pc with
  | scan i =>
    obtain ⟨ht, hp⟩ := hw
    simp only at ht hp
    unfold cl_object_take_multi_ownership_step
    dsimp only
    by_cases hi : (i : Int) < c.obj_num
    · rw [if_pos hi]
      have hil : i < c.obj.length := by
        rw [hnum] at hi; exact_mod_cast hi
      rcases take_spec (heap (c.obj.getD i 0)) c.self 0 CL_FALSE with
        h | ⟨o, h, ho⟩ | ⟨h, hno, _⟩ | ⟨h, hne⟩
      · rw [h]; trivial
      · rw [h]
        dsimp only
        exact ⟨tracked_claim c h0 heap own 0 0 i o ht (le_refl 0) hil (Nat.zero_le i),
          owned_below_claim c heap i o hp ho⟩
      · rw [h]
        dsimp only
        rw [Heap.store_same]
        exact multi_inv_after_scan_fail c h0 _ i hnum hil (tracked_fail c h0 heap own i ht hno)
      · exact absurd rfl hne
    · rw [if_neg hi]
      unfold after_scan
      by_cases he : ((i : Int) == c.obj_num) = true
      · rw [if_pos he]
        have hil : i = c.obj.length := by
          rw [hnum] at he
          simpa using he
        intro _
        dsimp only
        rw [← hil]
        exact hp
      · rw [if_neg he]
        by_cases hw : (c.wait == 0) = true
        · rw [if_pos hw]
          intro h
          cases h
        · rw [if_neg hw]
          exact ht
  | release i j =>
    have ht : tracked c h0 heap own j := hw
    unfold cl_object_take_multi_ownership_step
    dsimp only
    by_cases hj : (j : Int) < c.obj_num
    · rw [if_pos hj]
      by_cases hone : (own j == 1) = true
      · rw [if_pos hone]
        rcases release_spec (heap (c.obj.getD j 0)) c.self CL_FALSE with h | h
        · rw [h]; trivial
        · rw [h]
          exact tracked_drop c h0 heap own j _ ht 0 (fun e => hs e.symm)
      · rw [if_neg hone]
        exact tracked_skip c h0 heap own j ht (by simpa using hone)
    · rw [if_neg hj]
      have hjl : c.obj.length ≤ j := by
        rw [hnum] at hj
        have : ¬ j < c.obj.length := fun x => hj (by exact_mod_cast x)
        omega
      exact tracked_end c h0 heap own j c.obj.length ht hjl
  | acquire i =>
    have ht : tracked c h0 heap own c.obj.length := hw
    unfold cl_object_take_multi_ownership_step
    dsimp only
    by_cases hi : (i : Int) < c.obj_num
    · rw [if_pos hi]
      have hil : i < c.obj.length := by
        rw [hnum] at hi; exact_mod_cast hi
      rcases take_spec (heap (c.obj.getD i 0)) c.self 1 CL_FALSE with
        h | ⟨o, h, ho⟩ | ⟨h, _, h1⟩ | ⟨h, hne⟩
      · rw [h]; trivial
      · rw [h]
        exact ⟨tracked_claim c h0 heap own 0 c.obj.length i o ht (Nat.zero_le _) hil
          (Nat.zero_le i), owned_below_zero c _⟩
      · cases h1
      · rw [h]
        exact ⟨ht, hil⟩
    · rw [if_neg hi]; trivial
  | waiting i =>
    obtain ⟨ht, hil⟩ := hw
    simp only at ht hil
    unfold cl_object_take_multi_ownership_step
    dsimp only
    rcases wake_spec (heap (c.obj.getD i 0)) c.self CL_FALSE with ⟨o, h, ho⟩ | h
    · rw [h]
      exact ⟨tracked_claim c h0 heap own 0 c.obj.length i o ht (Nat.zero_le _) hil
        (Nat.zero_le i), owned_below_zero c _⟩
    · rw [h]
      exact ⟨ht, hil⟩
  | returned r => exact hw
  | aborted => trivial

theorem multi_inv_env (c : MultiCall) (h0 : Heap) (w : World) (h1 : Heap) (cr : Bool)
    (hiff : ∀ p, (h1 p).owner = c.self ↔ (w.heap p).owner = c.self)
    (hw : multi_inv c h0 w) :
    multi_inv c h0 { w with heap := h1, crashed := cr } := by
  obtain ⟨heap, own, pc, cr0⟩ := w
  have hin : ∀ p, (h1 p).owner = c.self → (heap p).owner = c.self := fun p => (hiff p).1
  have hout : ∀ p, (heap p).owner = c.self → (h1 p).owner = c.self := fun p => (hiff p).2
  cases pc with
  | scan i =>
    exact ⟨tracked_env c h0 heap h1 own 0 hw.1 hin, owned_below_env c heap h1 i hw.2 hout⟩
  | release i j => exact tracked_env c h0 heap h1 own j hw hin
  | acquire i => exact tracked_env c h0 heap h1 own _ hw hin
  | waiting i => exact ⟨tracked_env c h0 heap h1 own _ hw.1 hin, hw.2⟩
  | returned r => exact fun hr => owned_below_env c heap h1 _ (hw hr) hout
  | aborted => trivial

theorem store_owner_iff (h : Heap) (p : Nat) (o : _cl_base_object) (self : pthread_t)
    (hiff : o.owner = self ↔ (h p).owner = self) (q : Nat) :
    (h.store p o q).owner = self ↔ (h q).owner = self := by
  by_cases e : q = p
  · rw [e, Heap.store_at]; exact hiff
  · rw [Heap.store_other h p q o e]

theorem multi_inv_step (c : MultiCall) (h0 : Heap) (w : World) (e : Event)
    (hnum : c.obj_num = c.obj.length) (hs : c.self ≠ invalid_thread_id)
    (he : Event.foreign c.self e) (hw : multi_inv c h0 w) :
    multi_inv c h0 (w.step c e) := by
  unfold World.step
  by_cases hh : w.halted = true
  · rw [if_pos hh]; exact hw
  rw [if_neg hh]
  cases e with
  | caller => exact multi_inv_caller c h0 w hnum hs hw
  | take t p wait withlock =>
    have ht : t ≠ c.self := he
    dsimp only
    cases hr : cl_object_take_ownership (w.heap p) t wait withlock with
    | ret o r =>
      exact multi_inv_env c h0 w _ w.crashed
        (store_owner_iff w.heap p o c.self
          (take_foreign (w.heap p) o c.self t wait r withlock ht hs hr)) hw
    | blocked o => exact hw
    | fatal o => exact multi_inv_env c h0 w w.heap true (fun _ => Iff.rfl) hw
  | release t p withlock =>
    have ht : t ≠ c.self := he
    dsimp only
    cases hr : cl_object_release_ownership (w.heap p) t withlock with
    | ret o r =>
      exact multi_inv_env c h0 w _ w.crashed
        (store_owner_iff w.heap p o c.self
          (release_foreign (w.heap p) o c.self t withlock ht hs hr)) hw
    | blocked o => exact hw
    | fatal o => exact multi_inv_env c h0 w w.heap true (fun _ => Iff.rfl) hw

theorem multi_inv_run (c : MultiCall) (h0 : Heap) (es : List Event) (w : World)
    (hnum : c.obj_num = c.obj.length) (hs : c.self ≠ invalid_thread_id)
    (hes : ∀ e ∈ es, Event.foreign c.self e) (hw : multi_inv c h0 w) :
    multi_inv c h0 (World.run c w es) := by
  induction es generalizing w with
  | nil => exact hw
  | cons e rest ih =>
    exact ih (w.step c e) (fun x hx => hes x (List.mem_cons_of_mem _ hx))
      (multi_inv_step c h0 w e hnum hs (hes e (List.mem_cons_self _ _)) hw)

theorem multi_inv_enter (c : MultiCall) (alloc_ok : Bool) (h : Heap) :
    multi_inv c h (cl_object_take_multi_ownership_enter alloc_ok h) := by
  cases alloc_ok
  · trivial
  · exact ⟨fun p _ hp => Or.inl hp, owned_below_zero c h⟩

/-- The invariant holds at every point of every schedule of the call. -/
theorem multi_inv_reachable (c : MultiCall) (alloc_ok : Bool) (h : Heap) (es : List Event)
    (hnum : c.obj_num = c.obj.length) (hs : c.self ≠ invalid_thread_id)
    (hes : ∀ e ∈ es, Event.foreign c.self e) :
    multi_inv c h (cl_object_take_multi_ownership c alloc_ok h es) :=
  multi_inv_run c h es _ hnum hs hes (multi_inv_enter c alloc_ok h)

theorem owned_below_all (c : MultiCall) (h : Heap)
    (hp : owned_below c h c.obj.length) : ∀ p ∈ c.obj, (h p).owner = c.self := by
  intro p hp1
  obtain ⟨k, hk, hkp⟩ := List.getElem_of_mem hp1
  have := hp k hk hk
  rw [List.getD_eq_getElem c.obj 0 hk, hkp] at this
  exact this

/-! ## A scan that meets no foreign owner -/

theorem World.run_snoc (c : MultiCall) (w : World) (es : List Event) (e : Event) :
    World.run c w (es ++ [e]) = (World.run c w es).step c e := by
  unfold World.run
  rw [List.foldl_append]
  rfl

theorem scan_step_available (c : MultiCall) (heap : Heap) (own : Nat → Int) (k : Nat)
    (hnum : c.obj_num = c.obj.length) (hk : k < c.obj.length)
    (hv : CL_OBJECT_IS_VALID (heap (c.obj.getD k 0)) = true)
    (ho : (heap (c.obj.getD k 0)).owner = invalid_thread_id ∨
      (heap (c.obj.getD k 0)).owner = c.self) :
    World.step c ⟨heap, own, .scan k, false⟩ .caller
      = ⟨heap.store (c.obj.getD k 0) { heap (c.obj.getD k 0) with owner := c.self },
          set_ownship own k 1, .scan (k + 1), false⟩ := by
  have hlt : (k : Int) < c.obj_num := by
    rw [hnum]; exact_mod_cast hk
  have htake : cl_object_take_ownership (heap (c.obj.getD k 0)) c.self 0 CL_FALSE
      = Outcome.ret { heap (c.obj.getD k 0) with owner := c.self } 1 := by
    rcases ho with ho | ho
    · exact take_free _ c.self 0 CL_FALSE hv ho
    · rw [take_self _ c.self 0 CL_FALSE hv ho, ← ho, with_owner_self]
  unfold World.step World.halted
  simp only [Bool.false_or, beq_iff_eq, reduceCtorEq, if_false]
  unfold cl_object_take_multi_ownership_step
  simp only [hlt, if_true, htake]
  rfl

theorem scan_alone (c : MultiCall) (h : Heap) (hnum : c.obj_num = c.obj.length)
    (hall : ∀ p ∈ c.obj, CL_OBJECT_IS_VALID (h p) = true ∧
      ((h p).owner = invalid_thread_id ∨ (h p).owner = c.self)) (k : Nat)
    (hk : k ≤ c.obj.length) :
    ∃ heap own, cl_object_take_multi_ownership c true h (List.replicate k Event.caller)
        = ⟨heap, own, .scan k, false⟩ ∧
      ∀ p ∈ c.obj, CL_OBJECT_IS_VALID (heap p) = true ∧
        ((heap p).owner = invalid_thread_id ∨ (heap p).owner = c.self) := by
  induction k with
  | zero => exact ⟨h, fun _ => 0, rfl, hall⟩
  | succ k ih =>
    obtain ⟨heap, own, hrun, hgood⟩ := ih (by omega)
    have hkl : k < c.obj.length := by omega
    have hmem : c.obj.getD k 0 ∈ c.obj := by
      rw [List.getD_eq_getElem c.obj 0 hkl]
      exact List.getElem_mem _
    refine ⟨heap.store (c.obj.getD k 0) { heap (c.obj.getD k 0) with owner := c.self },
      set_ownship own k 1, ?_, ?_⟩
    · unfold cl_object_take_multi_ownership at hrun ⊢
      rw [List.replicate_succ', World.run_snoc, hrun]
      exact scan_step_available c heap own k hnum hkl (hgood _ hmem).1 (hgood _ hmem).2
    · intro p hp
      by_cases e : p = c.obj.getD k 0
      · rw [e, Heap.store_at]
        exact ⟨(hgood _ hmem).1, Or.inr rfl⟩
      · rw [Heap.store_other _ _ _ _ e]
        exact hgood p hp

theorem scan_end (c : MultiCall) (heap : Heap) (own : Nat → Int)
    (hnum : c.obj_num = c.obj.length) :
    World.step c ⟨heap, own, .scan c.obj.length, false⟩ .caller
      = ⟨heap, own, .returned 1, false⟩ := by
  unfold World.step World.halted
  simp only [Bool.false_or, beq_iff_eq, reduceCtorEq, if_false]
  unfold cl_object_take_multi_ownership_step after_scan
  simp only [hnum, lt_self_iff_false, if_false, beq_self_eq_true, if_true]

/-! ## The multi-acquire machine -/

/-- C1 (the code at the failing input): thread 1 asks without waiting for the
objects at addresses 0 and 1; object 0 is free and object 1 is owned by
thread 2. After the two steps of the scan the call has returned 0, and thread 1
still owns object 0, which it did not own before. -/
theorem multi_nonblocking_failure_keeps_ownership :
    (cl_object_take_multi_ownership ⟨1, [0, 1], 2, 0⟩ true
        (heap_of (fun p => if p = 1 then 2 else invalid_thread_id))
        [.caller, .caller]).pc = Pc.returned 0 ∧
    ¬ owns (cl_object_take_multi_ownership_enter true
        (heap_of (fun p => if p = 1 then 2 else invalid_thread_id))) 1 0 ∧
    owns (cl_object_take_multi_ownership ⟨1, [0, 1], 2, 0⟩ true
        (heap_of (fun p => if p = 1 then 2 else invalid_thread_id))
        [.caller, .caller]) 1 0 := by
  refine ⟨by decide, by decide, by decide⟩

/-- C6: in every schedule and every mode, when `cl_object_take_multi_ownership`
has returned 1 the calling thread owns every listed object; and when every
listed object is live and unowned or already owned by the caller at entry, then
with no other thread stepping (and the bookkeeping array allocated) the call
goes once through the scan, index after index, and returns 1 owning them all,
without ever entering the release loop or the blocking acquire. -/
theorem multi_success_complete (c : MultiCall) (alloc_ok : Bool) (h : Heap)
    (es : List Event) (hnum : c.obj_num = c.obj.length)
    (hs : c.self ≠ invalid_thread_id) (hes : ∀ e ∈ es, Event.foreign c.self e) :
    ((cl_object_take_multi_ownership c alloc_ok h es).pc = Pc.returned 1 →
      ∀ p ∈ c.obj, owns (cl_object_take_multi_ownership c alloc_ok h es) c.self p) ∧
    ((∀ p ∈ c.obj, CL_OBJECT_IS_VALID (h p) = true ∧
        ((h p).owner = invalid_thread_id ∨ (h p).owner = c.self)) →
      (∀ k, k ≤ c.obj.length →
        (cl_object_take_multi_ownership c true h (List.replicate k Event.caller)).pc
          = Pc.scan k) ∧
      (cl_object_take_multi_ownership c true h
        (List.replicate (c.obj.length + 1) Event.caller)).pc = Pc.returned 1 ∧
      ∀ p ∈ c.obj, owns (cl_object_take_multi_ownership c true h
        (List.replicate (c.obj.length + 1) Event.caller)) c.self p) := by
  constructor
  · intro hpc
    have hinv := multi_inv_reachable c alloc_ok h es hnum hs hes
    unfold multi_inv at hinv
    rw [hpc] at hinv
    exact owned_below_all c _ (hinv rfl)
  · intro hall
    have hend : (cl_object_take_multi_ownership c true h
        (List.replicate (c.obj.length + 1) Event.caller)).pc = Pc.returned 1 := by
      obtain ⟨heap, own, hrun, _⟩ := scan_alone c h hnum hall c.obj.length (le_refl _)
      unfold cl_object_take_multi_ownership at hrun ⊢
      rw [List.replicate_succ', World.run_snoc, hrun, scan_end c heap own hnum]
    refine ⟨?_, hend, ?_⟩
    · intro k hk
      obtain ⟨heap, own, hrun, _⟩ := scan_alone c h hnum hall k hk
      rw [hrun]
    · have hinv := multi_inv_reachable c true h
        (List.replicate (c.obj.length + 1) Event.caller) hnum hs
        (fun e he => by rw [List.eq_of_mem_replicate he]; trivial)
      unfold multi_inv at hinv
      rw [hend] at hinv
      exact owned_below_all c _ (hinv rfl)

/-- Witness of C6: thread 1 asks, blocking, for the objects at addresses 0 and
1 while thread 2 owns object 1. It takes object 0, fails on object 1, releases
object 0, suspends on object 1; thread 2 releases it; thread 1 is woken,
rescans and returns 1 owning both. -/
theorem multi_success_complete_witness :
    (cl_object_take_multi_ownership ⟨1, [0, 1], 2, 1⟩ true
      (heap_of (fun p => if p = 1 then 2 else invalid_thread_id))
      [.caller, .caller, .caller, .caller, .caller, .caller, .release 2 1 0,
       .caller, .caller, .caller, .caller]).pc = Pc.returned 1 ∧
    ∀ p ∈ [0, 1], owns (cl_object_take_multi_ownership ⟨1, [0, 1], 2, 1⟩ true
      (heap_of (fun p => if p = 1 then 2 else invalid_thread_id))
      [.caller, .caller, .caller, .caller, .caller, .caller, .release 2 1 0,
       .caller, .caller, .caller, .caller]) 1 p :=
  ⟨by decide,
   (multi_success_complete ⟨1, [0, 1], 2, 1⟩ true
      (heap_of (fun p => if p = 1 then 2 else invalid_thread_id))
      [.caller, .caller, .caller, .caller, .caller, .caller, .release 2 1 0,
       .caller, .caller, .caller, .caller] (by decide) (by decide) (by decide)).1 (by decide)⟩

/-- C9 (counterexample): thread 1 asks, blocking, for the live objects at
addresses 0 and 1; it already owns object 1 and thread 2 owns object 0. The
scan fails at index 0, the release loop finds no flag set, and the call is
about to issue the blocking acquire on object 0 while thread 1 still owns the
listed object 1. -/
theorem multi_blocks_holding_preowned :
    (cl_object_take_multi_ownership ⟨1, [0, 1], 2, 1⟩ true
      (heap_of (fun p => if p = 0 then 2 else 1))
      [.caller, .caller, .caller, .caller]).pc = Pc.acquire 0 ∧
    1 ∈ [0, 1] ∧
    CL_OBJECT_IS_VALID (heap_of (fun p => if p = 0 then 2 else 1) 1) = true ∧
    owns (cl_object_take_multi_ownership ⟨1, [0, 1], 2, 1⟩ true
      (heap_of (fun p => if p = 0 then 2 else 1))
      [.caller, .caller, .caller, .caller]) 1 1 := by
  refine ⟨by decide, by decide, by decide, by decide⟩

/-- C9 (amended): in every schedule, at the moment the call is about to issue
the blocking acquire on the failed object `i`, every listed object that the
calling thread owns is one it already owned when the call was entered: all that
this call acquired, in this pass or by waiting in an earlier pass, has been
released. -/
theorem multi_blocks_owning_nothing_new (c : MultiCall) (alloc_ok : Bool) (h : Heap)
    (es : List Event) (i : Nat) (hnum : c.obj_num = c.obj.length)
    (hs : c.self ≠ invalid_thread_id) (hes : ∀ e ∈ es, Event.foreign c.self e)
    (hpc : (cl_object_take_multi_ownership c alloc_ok h es).pc = Pc.acquire i) :
    ∀ p ∈ c.obj, owns (cl_object_take_multi_ownership c alloc_ok h es) c.self p →
      (h p).owner = c.self := by
  intro p hp hown
  have hinv := multi_inv_reachable c alloc_ok h es hnum hs hes
  unfold multi_inv at hinv
  rw [hpc] at hinv
  rcases hinv p hp hown with hpre | ⟨k, hk1, hk2, _, _⟩
  · exact hpre
  · omega

/-- Witness of C9 (amended): thread 1 takes object 0, fails on object 1 owned
by thread 2, and runs the release loop; when it is about to block on object 1
it owns neither object. -/
theorem multi_blocks_owning_nothing_new_witness :
    (cl_object_take_multi_ownership ⟨1, [0, 1], 2, 1⟩ true
      (heap_of (fun p => if p = 1 then 2 else invalid_thread_id))
      [.caller, .caller, .caller, .caller, .caller]).pc = Pc.acquire 1 ∧
    owns (cl_object_take_multi_ownership ⟨1, [0, 1], 2, 1⟩ true
      (heap_of (fun p => if p = 1 then 2 else invalid_thread_id))
      [.caller]) 1 0 ∧
    ∀ p ∈ [0, 1], owns (cl_object_take_multi_ownership ⟨1, [0, 1], 2, 1⟩ true
      (heap_of (fun p => if p = 1 then 2 else invalid_thread_id))
      [.caller, .caller, .caller, .caller, .caller]) 1 p →
      (heap_of (fun p => if p = 1 then 2 else invalid_thread_id) p).owner = 1 :=
  ⟨by decide, by decide,
   multi_blocks_owning_nothing_new ⟨1, [0, 1], 2, 1⟩ true
      (heap_of (fun p => if p = 1 then 2 else invalid_thread_id))
      [.caller, .caller, .caller, .caller, .caller] 1 (by decide) (by decide) (by decide)
      (by decide)⟩

/-- C10 (counterexample): thread 1 asks for the two distinct, live, unowned
objects at addresses 0 and 1, owning neither. After the first step of the scan,
before the second, it owns object 0 and not object 1: a non-empty proper subset
of the list, visible to any other thread. -/
theorem multi_incomplete_ownership_observable :
    [0, 1].Nodup ∧
    (∀ p ∈ [0, 1], ¬ owns (cl_object_take_multi_ownership_enter true
      (heap_of (fun _ => invalid_thread_id))) 1 p) ∧
    (cl_object_take_multi_ownership ⟨1, [0, 1], 2, 1⟩ true
      (heap_of (fun _ => invalid_thread_id)) [.caller]).pc = Pc.scan 1 ∧
    owns (cl_object_take_multi_ownership ⟨1, [0, 1], 2, 1⟩ true
      (heap_of (fun _ => invalid_thread_id)) [.caller]) 1 0 ∧
    ¬ owns (cl_object_take_multi_ownership ⟨1, [0, 1], 2, 1⟩ true
      (heap_of (fun _ => invalid_thread_id)) [.caller]) 1 1 := by
  refine ⟨by decide, by decide, by decide, by decide, by decide⟩

/-- C10 (amended): for a calling thread that owns none of the listed objects at
entry, in every schedule: whenever the call is about to issue the blocking
acquire or is suspended in it, the caller owns none of the listed objects, and
whenever the call has returned 1 the caller owns all of them. -/
theorem multi_all_or_nothing_at_rest (c : MultiCall) (alloc_ok : Bool) (h : Heap)
    (es : List Event) (hnum : c.obj_num = c.obj.length)
    (hs : c.self ≠ invalid_thread_id) (hes : ∀ e ∈ es, Event.foreign c.self e)
    (hnone : ∀ p ∈ c.obj, (h p).owner ≠ c.self) :
    (∀ i, ((cl_object_take_multi_ownership c alloc_ok h es).pc = Pc.acquire i ∨
        (cl_object_take_multi_ownership c alloc_ok h es).pc = Pc.waiting i) →
      ∀ p ∈ c.obj, ¬ owns (cl_object_take_multi_ownership c alloc_ok h es) c.self p) ∧
    ((cl_object_take_multi_ownership c alloc_ok h es).pc = Pc.returned 1 →
      ∀ p ∈ c.obj, owns (cl_object_take_multi_ownership c alloc_ok h es) c.self p) := by
  have hinv := multi_inv_reachable c alloc_ok h es hnum hs hes
  unfold multi_inv at hinv
  constructor
  · intro i hpc p hp hown
    have ht : tracked c h (cl_object_take_multi_ownership c alloc_ok h es).heap
        (cl_object_take_multi_ownership c alloc_ok h es).ownships c.obj.length := by
      rcases hpc with hpc | hpc
      · rw [hpc] at hinv; exact hinv
      · rw [hpc] at hinv; exact hinv.1
    rcases ht p hp hown with hpre | ⟨k, hk1, hk2, _, _⟩
    · exact hnone p hp hpre
    · omega
  · intro hpc
    rw [hpc] at hinv
    exact owned_below_all c _ (hinv rfl)

/-- Witness of C10 (amended): thread 1 has taken object 0, failed on object 1,
released object 0 and is suspended on object 1; it owns neither. -/
theorem multi_all_or_nothing_at_rest_witness :
    (cl_object_take_multi_ownership ⟨1, [0, 1], 2, 1⟩ true
      (heap_of (fun p => if p = 1 then 2 else invalid_thread_id))
      [.caller, .caller, .caller, .caller, .caller, .caller]).pc = Pc.waiting 1 ∧
    ∀ p ∈ [0, 1], ¬ owns (cl_object_take_multi_ownership ⟨1, [0, 1], 2, 1⟩ true
      (heap_of (fun p => if p = 1 then 2 else invalid_thread_id))
      [.caller, .caller, .caller, .caller, .caller, .caller]) 1 p :=
  ⟨by decide,
   (multi_all_or_nothing_at_rest ⟨1, [0, 1], 2, 1⟩ true
      (heap_of (fun p => if p = 1 then 2 else invalid_thread_id))
      [.caller, .caller, .caller, .caller, .caller, .caller]
      (by decide) (by decide) (by decide) (by decide)).1 1 (Or.inr (by decide))⟩

/-! ## A scan pass, step by step -/

theorem scan_heap_at (c : MultiCall) (h : Heap) (m : Nat) (p : Nat) :
    ((∃ k, k < m ∧ c.obj.getD k 0 = p) → scan_heap c h m p = { h p with owner := c.self }) ∧
    ((¬ ∃ k, k < m ∧ c.obj.getD k 0 = p) → scan_heap c h m p = h p) := by
  induction m with
  | zero =>
    constructor
    · rintro ⟨k, hk, _⟩; omega
    · intro _; rfl
  | succ m ih =>
    have hcur : scan_heap c h m p = h p ∨ scan_heap c h m p = { h p with owner := c.self } := by
      by_cases hex : ∃ k, k < m ∧ c.obj.getD k 0 = p
      · exact Or.inr (ih.1 hex)
      · exact Or.inl (ih.2 hex)
    by_cases e : p = c.obj.getD m 0
    · constructor
      · intro _
        show (scan_heap c h m).store (c.obj.getD m 0) _ p = _
        rw [e, Heap.store_at, ← e]
        rcases hcur with hc | hc <;> rw [hc]
      · intro hno
        exact absurd ⟨m, Nat.lt_succ_self m, e.symm⟩ hno
    · have hstep : scan_heap c h (m + 1) p = scan_heap c h m p := by
        show (scan_heap c h m).store (c.obj.getD m 0) _ p = _
        rw [Heap.store_other _ _ _ _ e]
      constructor
      · rintro ⟨k, hk, hkp⟩
        have hkm : k < m := by
          rcases Nat.lt_succ_iff_lt_or_eq.1 hk with h1 | h1
          · exact h1
          · exact absurd (by rw [← hkp, h1]) e
        rw [hstep]
        exact ih.1 ⟨k, hkm, hkp⟩
      · intro hno
        rw [hstep]
        exact ih.2 (fun ⟨k, hk, hkp⟩ => hno ⟨k, Nat.lt_succ_of_lt hk, hkp⟩)

theorem scan_heap_cases (c : MultiCall) (h : Heap) (m : Nat) (p : Nat) :
    scan_heap c h m p = h p ∨ scan_heap c h m p = { h p with owner := c.self } := by
  by_cases hex : ∃ k, k < m ∧ c.obj.getD k 0 = p
  · exact Or.inr ((scan_heap_at c h m p).1 hex)
  · exact Or.inl ((scan_heap_at c h m p).2 hex)

theorem scan_prefix (c : MultiCall) (heap : Heap) (own : Nat → Int)
    (hnum : c.obj_num = c.obj.length) (m : Nat) (hm : m ≤ c.obj.length)
    (hav : ∀ j, j < m → CL_OBJECT_IS_VALID (heap (c.obj.getD j 0)) = true ∧
      available (heap (c.obj.getD j 0)) c.self) :
    World.run c ⟨heap, own, .scan 0, false⟩ (List.replicate m Event.caller)
      = ⟨scan_heap c heap m, scan_flags own m, .scan m, false⟩ := by
  induction m with
  | zero => rfl
  | succ m ih =>
    have hrun := ih (by omega) (fun j hj => hav j (Nat.lt_succ_of_lt hj))
    have hml : m < c.obj.length := by omega
    obtain ⟨hv, ha⟩ := hav m (Nat.lt_succ_self m)
    rw [List.replicate_succ', World.run_snoc, hrun]
    have hv1 : CL_OBJECT_IS_VALID (scan_heap c heap m (c.obj.getD m 0)) = true := by
      rcases scan_heap_cases c heap m (c.obj.getD m 0) with e | e <;> rw [e]
      · exact hv
      · exact hv
    have ha1 : (scan_heap c heap m (c.obj.getD m 0)).owner = invalid_thread_id ∨
        (scan_heap c heap m (c.obj.getD m 0)).owner = c.self := by
      rcases scan_heap_cases c heap m (c.obj.getD m 0) with e | e <;> rw [e]
      · exact ha
      · exact Or.inr rfl
    exact scan_step_available c _ _ m hnum hml hv1 ha1

theorem scan_step_dead (c : MultiCall) (heap : Heap) (own : Nat → Int) (k : Nat)
    (hnum : c.obj_num = c.obj.length) (hk : k < c.obj.length)
    (hd : CL_OBJECT_IS_VALID (heap (c.obj.getD k 0)) = false) :
    World.step c ⟨heap, own, .scan k, false⟩ .caller = ⟨heap, own, .aborted, false⟩ := by
  have hlt : (k : Int) < c.obj_num := by
    rw [hnum]; exact_mod_cast hk
  unfold World.step World.halted
  simp only [Bool.false_or, beq_iff_eq, reduceCtorEq, if_false]
  unfold cl_object_take_multi_ownership_step
  simp only [hlt, if_true, take_dead _ c.self 0 CL_FALSE hd]

theorem scan_step_busy (c : MultiCall) (heap : Heap) (own : Nat → Int) (i : Nat)
    (hnum : c.obj_num = c.obj.length) (hi : i < c.obj.length)
    (hv : CL_OBJECT_IS_VALID (heap (c.obj.getD i 0)) = true)
    (hb : owned_by_other (heap (c.obj.getD i 0)) c.self) :
    World.step c ⟨heap, own, .scan i, false⟩ .caller
      = ⟨heap, set_ownship own i 0,
          if c.wait = 0 then .returned 0 else .release i 0, false⟩ := by
  have hlt : (i : Int) < c.obj_num := by
    rw [hnum]; exact_mod_cast hi
  have hne : ((i : Int) == c.obj_num) = false := by
    rw [hnum]
    simp only [beq_eq_false_iff_ne, ne_eq, Nat.cast_inj]
    omega
  have htake : cl_object_take_ownership (heap (c.obj.getD i 0)) c.self 0 CL_FALSE
      = Outcome.ret (heap (c.obj.getD i 0)) 0 := by
    rw [take_busy _ c.self 0 CL_FALSE hv hb, if_pos rfl]
  unfold World.step World.halted
  simp only [Bool.false_or, beq_iff_eq, reduceCtorEq, if_false]
  unfold cl_object_take_multi_ownership_step after_scan
  simp only [hlt, if_true, htake, Heap.store_same, hne, beq_self_eq_true]
  by_cases hw : c.wait = 0
  · simp [hw]
  · simp [hw]

/-! ## Lifecycle theorems -/

theorem destroy_eq (obj : _cl_base_object) :
    cl_object_destroy_base obj =
      if destroyable obj then Outcome.ret { obj with magic := CL_OBJECT_INVALID_MAGIC } ()
      else Outcome.fatal obj := by
  unfold destroyable cl_object_destroy_base
  by_cases h1 : CL_OBJECT_GET_REF obj = 0 <;>
  by_cases h2 : CL_OBJECT_IS_VALID obj = true <;>
  by_cases h3 : obj.owner = invalid_thread_id <;>
  by_cases h4 : list_node_out_of_list obj.node = true <;>
  simp [h1, h2, h3, h4]

theorem destroyed_eq (obj o : _cl_base_object)
    (hd : cl_object_destroy_base obj = Outcome.ret o ()) :
    o = { obj with magic := CL_OBJECT_INVALID_MAGIC } := by
  rw [destroy_eq] at hd
  by_cases h : destroyable obj
  · rw [if_pos h] at hd; cases hd; rfl
  · rw [if_neg h] at hd; cases hd

theorem destroyed_is_dead (obj o : _cl_base_object)
    (hd : cl_object_destroy_base obj = Outcome.ret o ()) :
    CL_OBJECT_IS_VALID o = false := by
  rw [destroyed_eq obj o hd]
  simp [CL_OBJECT_IS_VALID]

theorem destroy_dead (o : _cl_base_object) (hd : CL_OBJECT_IS_VALID o = false) :
    cl_object_destroy_base o = Outcome.fatal o := by
  unfold cl_object_destroy_base
  by_cases h1 : (CL_OBJECT_GET_REF o != 0) = true
  · simp only [h1, if_true]
  · simp only [h1, hd, Bool.not_false, if_true, Bool.false_eq_true, if_false]

/-- C11: on an object on which `cl_object_destroy_base` has succeeded, every
later call of `cl_object_take_ownership`, `cl_object_release_ownership`,
`cl_object_wait_on_cond`, `cl_object_notify_cond` and `cl_object_destroy_base`
is fatal and leaves the object as it is; and when the scan of
`cl_object_take_multi_ownership` has acquired the objects before index `k`
(live and available) and the object at index `k` is that dead object, the call
is fatal at index `k` and the dead object is as it was. -/
theorem use_after_destroy_fatal (obj o : _cl_base_object)
    (hd : cl_object_destroy_base obj = Outcome.ret o ()) :
    (∀ self wait withlock, cl_object_take_ownership o self wait withlock = Outcome.fatal o) ∧
    (∀ self withlock, cl_object_release_ownership o self withlock = Outcome.fatal o) ∧
    cl_object_wait_on_cond o = Outcome.fatal o ∧
    cl_object_notify_cond o = Outcome.fatal o ∧
    cl_object_destroy_base o = Outcome.fatal o ∧
    (∀ (c : MultiCall) (h : Heap) (k : Nat), c.obj_num = c.obj.length →
      k < c.obj.length → h (c.obj.getD k 0) = o →
      (∀ j, j < k → CL_OBJECT_IS_VALID (h (c.obj.getD j 0)) = true ∧
        available (h (c.obj.getD j 0)) c.self) →
      (cl_object_take_multi_ownership c true h
        (List.replicate (k + 1) Event.caller)).pc = Pc.aborted ∧
      (cl_object_take_multi_ownership c true h
        (List.replicate (k + 1) Event.caller)).heap (c.obj.getD k 0) = o) := by
  have hdead := destroyed_is_dead obj o hd
  refine ⟨fun self wait withlock => take_dead o self wait withlock hdead,
    fun self withlock => release_dead o self withlock hdead, ?_, ?_,
    destroy_dead o hdead, ?_⟩
  · simp [cl_object_wait_on_cond, hdead]
  · simp [cl_object_notify_cond, hdead]
  · intro c h k hnum hk hko hav
    have hrun := scan_prefix c h (fun _ => 0) hnum k (le_of_lt hk) hav
    have hsame : scan_heap c h k (c.obj.getD k 0) = h (c.obj.getD k 0) := by
      apply (scan_heap_at c h k (c.obj.getD k 0)).2
      rintro ⟨j, hj, hjk⟩
      have := (hav j hj).1
      rw [hjk, hko, hdead] at this
      cases this
    have hstep : cl_object_take_multi_ownership c true h
        (List.replicate (k + 1) Event.caller)
          = ⟨scan_heap c h k, scan_flags (fun _ => 0) k, .aborted, false⟩ := by
      unfold cl_object_take_multi_ownership
      rw [List.replicate_succ', World.run_snoc]
      show World.step c (World.run c ⟨h, fun _ => 0, .scan 0, false⟩ _) _ = _
      rw [hrun]
      exact scan_step_dead c _ _ k hnum hk (by rw [hsame, hko]; exact hdead)
    rw [hstep]
    exact ⟨rfl, by rw [← hko]; exact hsame⟩

/-- Witness of C11: an unowned, detached object with reference count 0 is
destroyed; afterwards an acquire, and a multi-acquire by thread 1 on the list
of a free object and the destroyed one, are fatal. -/
theorem use_after_destroy_fatal_witness :
    cl_object_destroy_base ⟨0, 1, 0, .detached, invalid_thread_id⟩
      = Outcome.ret ⟨0, CL_OBJECT_INVALID_MAGIC, 0, .detached, invalid_thread_id⟩ () ∧
    (∀ self wait withlock,
      cl_object_take_ownership ⟨0, CL_OBJECT_INVALID_MAGIC, 0, .detached, invalid_thread_id⟩
        self wait withlock
        = Outcome.fatal ⟨0, CL_OBJECT_INVALID_MAGIC, 0, .detached, invalid_thread_id⟩) ∧
    (cl_object_take_multi_ownership ⟨1, [0, 1], 2, 1⟩ true
      (fun p => if p = 1 then ⟨0, CL_OBJECT_INVALID_MAGIC, 0, .detached, invalid_thread_id⟩
        else heap_of (fun _ => invalid_thread_id) p)
      [.caller, .caller]).pc = Pc.aborted :=
  ⟨by decide,
   (use_after_destroy_fatal ⟨0, 1, 0, .detached, invalid_thread_id⟩
      ⟨0, CL_OBJECT_INVALID_MAGIC, 0, .detached, invalid_thread_id⟩ (by decide)).1,
   by decide⟩

/-- C12 (counterexample): `cl_object_init_base` called with the dead marker as
tag leaves an object whose tag is not live: its tag is the very value that
`cl_object_destroy_base` writes, so it is dead under every reading of the tag
that takes a destroyed object for dead. -/
theorem init_with_dead_marker_not_live :
    CL_OBJECT_IS_VALID
      (cl_object_init_base ⟨0, 0, 0, .attached, 5⟩ CL_OBJECT_INVALID_MAGIC 7) = false ∧
    (cl_object_init_base ⟨0, 0, 0, .attached, 5⟩ CL_OBJECT_INVALID_MAGIC 7).magic
      = (cl_object_destroy_base ⟨0, 1, 0, .detached, invalid_thread_id⟩).after.magic ∧
    ∀ live : Nat → Bool, live CL_OBJECT_INVALID_MAGIC = false →
      live (cl_object_init_base ⟨0, 0, 0, .attached, 5⟩ CL_OBJECT_INVALID_MAGIC 7).magic
        = false := by
  refine ⟨by decide, by decide, fun live h => h⟩

/-- C12 (amended): after `cl_object_init_base(obj, tag)` the tag is the value
passed, so it is live exactly when that value is not the dead marker; for every
tag value the reference count is 1, the owner is none, the link is detached and
the dispatch capability is bound; and `cl_object_destroy_base` called directly
after init is fatal and leaves the object as it is. -/
theorem cl_object_init_base_post (obj : _cl_base_object) (magic icd : Nat) :
    (CL_OBJECT_IS_VALID (cl_object_init_base obj magic icd) = true ↔
      magic ≠ CL_OBJECT_INVALID_MAGIC) ∧
    (cl_object_init_base obj magic icd).magic = magic ∧
    CL_OBJECT_GET_REF (cl_object_init_base obj magic icd) = 1 ∧
    (cl_object_init_base obj magic icd).owner = invalid_thread_id ∧
    list_node_out_of_list (cl_object_init_base obj magic icd).node = true ∧
    (cl_object_init_base obj magic icd).dispatch = icd ∧
    cl_object_destroy_base (cl_object_init_base obj magic icd)
      = Outcome.fatal (cl_object_init_base obj magic icd) := by
  refine ⟨?_, rfl, rfl, rfl, rfl, rfl, ?_⟩
  · simp [CL_OBJECT_IS_VALID, cl_object_init_base]
  · simp [cl_object_destroy_base, cl_object_init_base, CL_OBJECT_GET_REF]

/-! ## The write surface -/

theorem available_of_not_busy (obj : _cl_base_object) (self : pthread_t)
    (h : ¬ owned_by_other obj self) : available obj self := by
  unfold owned_by_other at h
  unfold available
  by_cases h1 : obj.owner = self
  · exact Or.inr h1
  · by_cases h2 : obj.owner = invalid_thread_id
    · exact Or.inl h2
    · exact absurd ⟨h1, h2⟩ h

theorem same_but_owner_refl (a : _cl_base_object) : same_but_owner a a :=
  ⟨rfl, rfl, rfl, rfl⟩

theorem same_but_owner_set (a : _cl_base_object) (t : pthread_t) :
    same_but_owner { a with owner := t } a :=
  ⟨rfl, rfl, rfl, rfl⟩

theorem same_but_owner_trans (a b d : _cl_base_object) (h1 : same_but_owner a b)
    (h2 : same_but_owner b d) : same_but_owner a d :=
  ⟨h1.1.trans h2.1, h1.2.1.trans h2.2.1, h1.2.2.1.trans h2.2.2.1, h1.2.2.2.trans h2.2.2.2⟩

/-- The outcomes of `cl_object_take_ownership`, one by one. -/
theorem take_shape (obj : _cl_base_object) (self : pthread_t) (wait : Int) (withlock : cl_bool) :
    cl_object_take_ownership obj self wait withlock = Outcome.fatal obj ∨
    cl_object_take_ownership obj self wait withlock = Outcome.ret obj 1 ∨
    cl_object_take_ownership obj self wait withlock
      = Outcome.ret { obj with owner := self } 1 ∨
    cl_object_take_ownership obj self wait withlock = Outcome.ret obj 0 ∨
    cl_object_take_ownership obj self wait withlock = Outcome.blocked obj := by
  rcases take_cases obj self with h | ⟨hl, h⟩ | ⟨hl, h⟩ | ⟨hl, h⟩
  · exact Or.inl (take_dead obj self wait withlock h)
  · exact Or.inr (Or.inl (take_self obj self wait withlock hl h))
  · exact Or.inr (Or.inr (Or.inl (take_free obj self wait withlock hl h)))
  · rw [take_busy obj self wait withlock hl h]
    by_cases hw : wait = 0
    · rw [if_pos hw]; exact Or.inr (Or.inr (Or.inr (Or.inl rfl)))
    · rw [if_neg hw]; exact Or.inr (Or.inr (Or.inr (Or.inr rfl)))

theorem wake_shape (obj : _cl_base_object) (self : pthread_t) (withlock : cl_bool) :
    cl_object_take_ownership_wake obj self withlock
      = Outcome.ret { obj with owner := self } 1 ∨
    cl_object_take_ownership_wake obj self withlock = Outcome.blocked obj := by
  by_cases h : obj.owner = invalid_thread_id
  · exact Or.inl (wake_free obj self withlock h)
  · exact Or.inr (wake_busy obj self withlock h)

theorem take_after (obj : _cl_base_object) (self : pthread_t) (wait : Int) (withlock : cl_bool) :
    same_but_owner (cl_object_take_ownership obj self wait withlock).after obj := by
  rcases take_shape obj self wait withlock with h | h | h | h | h <;> rw [h]
  · exact same_but_owner_refl obj
  · exact same_but_owner_refl obj
  · exact same_but_owner_set obj self
  · exact same_but_owner_refl obj
  · exact same_but_owner_refl obj

theorem wake_after (obj : _cl_base_object) (self : pthread_t) (withlock : cl_bool) :
    same_but_owner (cl_object_take_ownership_wake obj self withlock).after obj := by
  rcases wake_shape obj self withlock with h | h <;> rw [h]
  · exact same_but_owner_set obj self
  · exact same_but_owner_refl obj

theorem release_after (obj : _cl_base_object) (self : pthread_t) (withlock : cl_bool) :
    same_but_owner (cl_object_release_ownership obj self withlock).after obj := by
  rcases release_spec obj self withlock with h | h <;> rw [h]
  · exact same_but_owner_refl obj
  · exact same_but_owner_set obj invalid_thread_id

/-- A step of the call writes at most the owner of one object, the one at the
index the program point stands at; it writes the caller or none, and only where
the owner was none or the caller. -/
theorem caller_step_heap (c : MultiCall) (w : World) :
    (cl_object_take_multi_ownership_step c w).heap = w.heap ∨
    ∃ k t, (w.pc = Pc.waiting k ∨ (k : Int) < c.obj_num) ∧
      (cl_object_take_multi_ownership_step c w).heap
        = w.heap.store (c.obj.getD k 0) { w.heap (c.obj.getD k 0) with owner := t } ∧
      (t = c.self ∨ t = invalid_thread_id) ∧
      available (w.heap (c.obj.getD k 0)) c.self := by
  obtain ⟨heap, own, pc, cr⟩ := w
  cases pc with
  | scan i =>
    unfold cl_object_take_multi_ownership_step after_scan
    dsimp only
    by_cases hi : (i : Int) < c.obj_num
    · rw [if_pos hi]
      rcases take_cases (heap (c.obj.getD i 0)) c.self with h | ⟨hl, h⟩ | ⟨hl, h⟩ | ⟨hl, h⟩
      · rw [take_dead _ c.self 0 CL_FALSE h]; exact Or.inl rfl
      · rw [take_self _ c.self 0 CL_FALSE hl h]
        left; dsimp only; simp only [Heap.store_same]; rfl
      · rw [take_free _ c.self 0 CL_FALSE hl h]
        right; exact ⟨i, c.self, Or.inr hi, rfl, Or.inl rfl, Or.inl h⟩
      · rw [take_busy _ c.self 0 CL_FALSE hl h, if_pos rfl]
        left
        dsimp only
        simp only [Heap.store_same]
        split_ifs <;> rfl
    · rw [if_neg hi]
      left
      split_ifs <;> rfl
  | release i j =>
    unfold cl_object_take_multi_ownership_step
    dsimp only
    by_cases hj : (j : Int) < c.obj_num
    · rw [if_pos hj]
      by_cases hone : (own j == 1) = true
      · rw [if_pos hone]
        by_cases hl : CL_OBJECT_IS_VALID (heap (c.obj.getD j 0)) = true
        · by_cases ho : owned_by_other (heap (c.obj.getD j 0)) c.self
          · rw [release_other _ c.self CL_FALSE ho]; exact Or.inl rfl
          · rw [release_ok _ c.self CL_FALSE hl ho]
            right
            exact ⟨j, invalid_thread_id, Or.inr hj, rfl, Or.inr rfl,
              available_of_not_busy _ _ ho⟩
        · rw [release_dead _ c.self CL_FALSE (by simpa using hl)]; exact Or.inl rfl
      · rw [if_neg hone]; exact Or.inl rfl
    · rw [if_neg hj]; exact Or.inl rfl
  | acquire i =>
    unfold cl_object_take_multi_ownership_step
    dsimp only
    by_cases hi : (i : Int) < c.obj_num
    · rw [if_pos hi]
      rcases take_cases (heap (c.obj.getD i 0)) c.self with h | ⟨hl, h⟩ | ⟨hl, h⟩ | ⟨hl, h⟩
      · rw [take_dead _ c.self 1 CL_FALSE h]; exact Or.inl rfl
      · rw [take_self _ c.self 1 CL_FALSE hl h]
        left; dsimp only; simp only [Heap.store_same]
      · rw [take_free _ c.self 1 CL_FALSE hl h]
        right; exact ⟨i, c.self, Or.inr hi, rfl, Or.inl rfl, Or.inl h⟩
      · rw [take_busy _ c.self 1 CL_FALSE hl h, if_neg (by decide)]
        exact Or.inl rfl
    · rw [if_neg hi]; exact Or.inl rfl
  | waiting i =>
    unfold cl_object_take_multi_ownership_step
    dsimp only
    by_cases h : (heap (c.obj.getD i 0)).owner = invalid_thread_id
    · rw [wake_free _ c.self CL_FALSE h]
      right; exact ⟨i, c.self, Or.inl rfl, rfl, Or.inl rfl, Or.inl h⟩
    · rw [wake_busy _ c.self CL_FALSE h]
      exact Or.inl rfl
  | returned r => exact Or.inl rfl
  | aborted => exact Or.inl rfl

theorem pc_in_range_after_scan (c : MultiCall) (w : World) (i : Nat)
    (hnum : c.obj_num = c.obj.length) (hi : i ≤ c.obj.length) :
    pc_in_range c (after_scan c w i) := by
  unfold after_scan
  by_cases he : ((i : Int) == c.obj_num) = true
  · rw [if_pos he]; trivial
  · rw [if_neg he]
    by_cases hw : (c.wait == 0) = true
    · rw [if_pos hw]; trivial
    · rw [if_neg hw]
      show i < c.obj.length
      have hne : i ≠ c.obj.length := by
        intro e
        apply he
        rw [hnum, e]
        exact beq_self_eq_true _
      omega

theorem pc_in_range_caller (c : MultiCall) (w : World)
    (hnum : c.obj_num = c.obj.length) (hr : pc_in_range c w) :
    pc_in_range c (cl_object_take_multi_ownership_step c w) := by
  obtain ⟨heap, own, pc, cr⟩ := w
  cases pc with
  | scan i =>
    have hi : i ≤ c.obj.length := hr
    unfold cl_object_take_multi_ownership_step
    dsimp only
    by_cases hlt : (i : Int) < c.obj_num
    · rw [if_pos hlt]
      have hil : i < c.obj.length := by
        rw [hnum] at hlt; exact_mod_cast hlt
      cases cl_object_take_ownership (heap (c.obj.getD i 0)) c.self 0 CL_FALSE with
      | ret o r =>
        dsimp only
        by_cases hr0 : (r == 0) = true
        · rw [if_pos hr0]
          exact pc_in_range_after_scan c _ i hnum hi
        · rw [if_neg hr0]
          exact hil
      | blocked o => exact hi
      | fatal o => trivial
    · rw [if_neg hlt]
      exact pc_in_range_after_scan c _ i hnum hi
  | release i j =>
    have hi : i < c.obj.length := hr
    unfold cl_object_take_multi_ownership_step
    dsimp only
    by_cases hj : (j : Int) < c.obj_num
    · rw [if_pos hj]
      by_cases hone : (own j == 1) = true
      · rw [if_pos hone]
        cases cl_object_release_ownership (heap (c.obj.getD j 0)) c.self CL_FALSE with
        | ret o r => exact hi
        | blocked o => exact hi
        | fatal o => trivial
      · rw [if_neg hone]; exact hi
    · rw [if_neg hj]; exact hi
  | acquire i =>
    have hi : i < c.obj.length := hr
    unfold cl_object_take_multi_ownership_step
    dsimp only
    by_cases hlt : (i : Int) < c.obj_num
    · rw [if_pos hlt]
      cases cl_object_take_ownership (heap (c.obj.getD i 0)) c.self 1 CL_FALSE with
      | ret o r => exact Nat.zero_le _
      | blocked o => exact hi
      | fatal o => trivial
    · rw [if_neg hlt]; trivial
  | waiting i =>
    have hi : i < c.obj.length := hr
    unfold cl_object_take_multi_ownership_step
    dsimp only
    cases cl_object_take_ownership_wake (heap (c.obj.getD i 0)) c.self CL_FALSE with
    | ret o r => exact Nat.zero_le _
    | blocked o => exact hi
    | fatal o => trivial
  | returned r => trivial
  | aborted => trivial

/-- A step of another thread leaves the program point and the flags alone and
writes at most the owner of one object. -/
theorem world_step_frame (c : MultiCall) (w : World) (e : Event) :
    (∀ p, same_but_owner ((w.step c e).heap p) (w.heap p)) ∧
    (e ≠ Event.caller → (w.step c e).pc = w.pc ∧ (w.step c e).ownships = w.ownships) := by
  have hstore : ∀ (q : Nat) (o : _cl_base_object), same_but_owner o (w.heap q) →
      ∀ p, same_but_owner (w.heap.store q o p) (w.heap p) := by
    intro q o ho p
    by_cases e : p = q
    · rw [e, Heap.store_at]; exact ho
    · rw [Heap.store_other _ _ _ _ e]; exact same_but_owner_refl _
  unfold World.step
  by_cases hh : w.halted = true
  · rw [if_pos hh]
    exact ⟨fun p => same_but_owner_refl _, fun _ => ⟨rfl, rfl⟩⟩
  rw [if_neg hh]
  cases e with
  | caller =>
    refine ⟨?_, fun h => absurd rfl h⟩
    intro p
    dsimp only
    rcases caller_step_heap c w with h | ⟨k, t, _, h, _, _⟩ <;> rw [h]
    · exact same_but_owner_refl _
    · exact hstore _ _ (same_but_owner_set _ t) p
  | take t q wait withlock =>
    dsimp only
    have ha := take_after (w.heap q) t wait withlock
    cases hr : cl_object_take_ownership (w.heap q) t wait withlock with
    | ret o r =>
      rw [hr] at ha
      exact ⟨hstore q o ha, fun _ => ⟨rfl, rfl⟩⟩
    | blocked o => exact ⟨fun p => same_but_owner_refl _, fun _ => ⟨rfl, rfl⟩⟩
    | fatal o => exact ⟨fun p => same_but_owner_refl _, fun _ => ⟨rfl, rfl⟩⟩
  | release t q withlock =>
    dsimp only
    have ha := release_after (w.heap q) t withlock
    cases hr : cl_object_release_ownership (w.heap q) t withlock with
    | ret o r =>
      rw [hr] at ha
      exact ⟨hstore q o ha, fun _ => ⟨rfl, rfl⟩⟩
    | blocked o => exact ⟨fun p => same_but_owner_refl _, fun _ => ⟨rfl, rfl⟩⟩
    | fatal o => exact ⟨fun p => same_but_owner_refl _, fun _ => ⟨rfl, rfl⟩⟩

theorem pc_in_range_step (c : MultiCall) (w : World) (e : Event)
    (hnum : c.obj_num = c.obj.length) (hr : pc_in_range c w) :
    pc_in_range c (w.step c e) := by
  by_cases he : e = Event.caller
  · subst he
    unfold World.step
    by_cases hh : w.halted = true
    · rw [if_pos hh]; exact hr
    · rw [if_neg hh]; exact pc_in_range_caller c w hnum hr
  · have hpc := ((world_step_frame c w e).2 he).1
    unfold pc_in_range at hr ⊢
    rw [hpc]
    exact hr

theorem pc_in_range_reachable (c : MultiCall) (alloc_ok : Bool) (h : Heap) (es : List Event)
    (hnum : c.obj_num = c.obj.length) :
    pc_in_range c (cl_object_take_multi_ownership c alloc_ok h es) := by
  have hgen : ∀ (es : List Event) (w : World), pc_in_range c w →
      pc_in_range c (World.run c w es) := by
    intro es
    induction es with
    | nil => intro w hw; exact hw
    | cons e rest ih =>
      intro w hw
      exact ih (w.step c e) (pc_in_range_step c w e hnum hw)
  apply hgen
  cases alloc_ok
  · trivial
  · exact Nat.zero_le _

theorem same_but_owner_reachable (c : MultiCall) (es : List Event) (w : World) (p : Nat) :
    same_but_owner ((World.run c w es).heap p) (w.heap p) := by
  induction es generalizing w with
  | nil => exact same_but_owner_refl _
  | cons e rest ih =>
    exact same_but_owner_trans _ _ _ (ih (w.step c e)) ((world_step_frame c w e).1 p)

/-- C13: `cl_object_take_ownership` (at once or after a wake-up) and
`cl_object_release_ownership` leave dispatch, tag, reference count and link as
they were; `cl_object_wait_on_cond` and `cl_object_notify_cond` write nothing;
`cl_object_destroy_base` writes no field other than the tag, which it sets to
the dead marker when it succeeds; along every schedule of
`cl_object_take_multi_ownership` every object keeps dispatch, tag, reference
count and link, and no step of the call writes an object that is not in its
list. So dispatch and reference count are written by no operation but init. -/
theorem write_surface (c : MultiCall) (alloc_ok : Bool) (h : Heap) (es : List Event) :
    (∀ obj self wait withlock,
      same_but_owner (cl_object_take_ownership obj self wait withlock).after obj) ∧
    (∀ obj self withlock,
      same_but_owner (cl_object_take_ownership_wake obj self withlock).after obj) ∧
    (∀ obj self withlock,
      same_but_owner (cl_object_release_ownership obj self withlock).after obj) ∧
    (∀ obj, (cl_object_wait_on_cond obj).after = obj ∧ (cl_object_notify_cond obj).after = obj) ∧
    (∀ obj, (cl_object_destroy_base obj).after = obj ∨
      (cl_object_destroy_base obj = Outcome.ret { obj with magic := CL_OBJECT_INVALID_MAGIC } () ∧
        (cl_object_destroy_base obj).after = { obj with magic := CL_OBJECT_INVALID_MAGIC })) ∧
    (∀ p, same_but_owner ((cl_object_take_multi_ownership c alloc_ok h es).heap p) (h p)) ∧
    (c.obj_num = c.obj.length → ∀ p, p ∉ c.obj →
      (cl_object_take_multi_ownership_step c
        (cl_object_take_multi_ownership c alloc_ok h es)).heap p
        = (cl_object_take_multi_ownership c alloc_ok h es).heap p) := by
  refine ⟨take_after, wake_after, release_after, ?_, ?_, ?_, ?_⟩
  · intro obj
    unfold cl_object_wait_on_cond cl_object_notify_cond
    constructor <;> split_ifs <;> rfl
  · intro obj
    rw [destroy_eq]
    by_cases hd : destroyable obj
    · rw [if_pos hd]; exact Or.inr ⟨rfl, rfl⟩
    · rw [if_neg hd]; exact Or.inl rfl
  · intro p
    exact same_but_owner_reachable c es _ p
  · intro hnum p hp
    have hr := pc_in_range_reachable c alloc_ok h es hnum
    rcases caller_step_heap c (cl_object_take_multi_ownership c alloc_ok h es) with
      e | ⟨k, t, hk, e, _, _⟩ <;> rw [e]
    have hkl : k < c.obj.length := by
      rcases hk with hk | hk
      · unfold pc_in_range at hr
        rw [hk] at hr
        exact hr
      · rw [hnum] at hk; exact_mod_cast hk
    have hne : p ≠ c.obj.getD k 0 := by
      intro e2
      apply hp
      rw [e2, List.getD_eq_getElem c.obj 0 hkl]
      exact List.getElem_mem _
    exact Heap.store_other _ _ _ _ hne

/-! ## Order of the scan and restart after the wait -/

theorem getD_inj_of_nodup (l : List Nat) (hn : l.Nodup) (j k : Nat)
    (hj : j < l.length) (hk : k < l.length) (e : l.getD j 0 = l.getD k 0) : j = k := by
  rw [List.getD_eq_getElem l 0 hj, List.getD_eq_getElem l 0 hk] at e
  exact (List.Nodup.getElem_inj_iff hn).1 e

/-- C16: a pass over a list of distinct live objects, started in any memory
and with any bookkeeping, in which `i` is the smallest index whose object is
owned by another thread: the steps of the pass attempt the indices 0, 1, ...,
`i` in this order, the step at index `i` ends the scan with failure index `i`
(the call returns 0 when non-blocking, enters the release loop otherwise), no
index past `i` is attempted, the objects at the indices from `i` on are as they
were, and the objects before `i` are owned by the caller. -/
theorem scan_stops_at_first_failure (c : MultiCall) (heap : Heap) (own : Nat → Int)
    (i : Nat) (hnum : c.obj_num = c.obj.length) (hnodup : c.obj.Nodup)
    (hi : i < c.obj.length)
    (hlive : ∀ p ∈ c.obj, CL_OBJECT_IS_VALID (heap p) = true)
    (hbusy : owned_by_other (heap (c.obj.getD i 0)) c.self)
    (hmin : ∀ j, j < i → ¬ owned_by_other (heap (c.obj.getD j 0)) c.self) :
    (∀ m, m ≤ i →
      (World.run c ⟨heap, own, .scan 0, false⟩ (List.replicate m Event.caller)).pc
        = Pc.scan m) ∧
    (World.run c ⟨heap, own, .scan 0, false⟩ (List.replicate (i + 1) Event.caller)).pc
      = (if c.wait = 0 then Pc.returned 0 else Pc.release i 0) ∧
    (∀ k, i ≤ k → k < c.obj.length →
      (World.run c ⟨heap, own, .scan 0, false⟩
        (List.replicate (i + 1) Event.caller)).heap (c.obj.getD k 0)
        = heap (c.obj.getD k 0)) ∧
    (∀ k, k < i →
      ((World.run c ⟨heap, own, .scan 0, false⟩
        (List.replicate (i + 1) Event.caller)).heap (c.obj.getD k 0)).owner = c.self) ∧
    (World.run c ⟨heap, own, .scan 0, false⟩
      (List.replicate (i + 1) Event.caller)).ownships i = 0 := by
  have hmem : ∀ j, j < c.obj.length → c.obj.getD j 0 ∈ c.obj := by
    intro j hj
    rw [List.getD_eq_getElem c.obj 0 hj]
    exact List.getElem_mem _
  have hav : ∀ j, j < i → CL_OBJECT_IS_VALID (heap (c.obj.getD j 0)) = true ∧
      available (heap (c.obj.getD j 0)) c.self :=
    fun j hj => ⟨hlive _ (hmem j (by omega)), available_of_not_busy _ _ (hmin j hj)⟩
  have hpre : ∀ m, m ≤ i →
      World.run c ⟨heap, own, .scan 0, false⟩ (List.replicate m Event.caller)
        = ⟨scan_heap c heap m, scan_flags own m, .scan m, false⟩ :=
    fun m hm => scan_prefix c heap own hnum m (by omega) (fun j hj => hav j (by omega))
  have hkeep : ∀ k, i ≤ k → k < c.obj.length →
      scan_heap c heap i (c.obj.getD k 0) = heap (c.obj.getD k 0) := by
    intro k hik hk
    apply (scan_heap_at c heap i (c.obj.getD k 0)).2
    rintro ⟨j, hj, hjk⟩
    have := getD_inj_of_nodup c.obj hnodup j k (by omega) hk hjk
    omega
  have hlast : World.run c ⟨heap, own, .scan 0, false⟩ (List.replicate (i + 1) Event.caller)
      = ⟨scan_heap c heap i, set_ownship (scan_flags own i) i 0,
          if c.wait = 0 then .returned 0 else .release i 0, false⟩ := by
    rw [List.replicate_succ', World.run_snoc, hpre i (le_refl i)]
    apply scan_step_busy c _ _ i hnum hi
    · rw [hkeep i (le_refl i) hi]; exact hlive _ (hmem i hi)
    · rw [hkeep i (le_refl i) hi]; exact hbusy
  refine ⟨fun m hm => by rw [hpre m hm], by rw [hlast], ?_, ?_, ?_⟩
  · intro k hik hk
    rw [hlast]
    exact hkeep k hik hk
  · intro k hk
    rw [hlast]
    show (scan_heap c heap i (c.obj.getD k 0)).owner = c.self
    rw [(scan_heap_at c heap i (c.obj.getD k 0)).1 ⟨k, hk, rfl⟩]
  · rw [hlast]
    exact set_ownship_at _ i 0

/-- Witness of C16: thread 1 asks, blocking, for the objects at addresses 0, 1
and 2; object 1 is owned by thread 2. The scan attempts index 0, then index 1,
and stops there; object 2 is never attempted. -/
theorem scan_stops_at_first_failure_witness :
    (World.run ⟨1, [0, 1, 2], 3, 1⟩
      ⟨heap_of (fun p => if p = 1 then 2 else invalid_thread_id), fun _ => 0, .scan 0, false⟩
      (List.replicate (1 + 1) Event.caller)).pc = Pc.release 1 0 ∧
    (∀ k, 1 ≤ k → k < 3 →
      (World.run ⟨1, [0, 1, 2], 3, 1⟩
        ⟨heap_of (fun p => if p = 1 then 2 else invalid_thread_id), fun _ => 0, .scan 0, false⟩
        (List.replicate (1 + 1) Event.caller)).heap ([0, 1, 2].getD k 0)
        = heap_of (fun p => if p = 1 then 2 else invalid_thread_id) ([0, 1, 2].getD k 0)) :=
  ⟨(scan_stops_at_first_failure ⟨1, [0, 1, 2], 3, 1⟩
      (heap_of (fun p => if p = 1 then 2 else invalid_thread_id)) (fun _ => 0) 1
      (by decide) (by decide) (by decide) (by intro p _; rfl) (by decide)
      (by intro j hj; interval_cases j; decide)).2.1,
   (scan_stops_at_first_failure ⟨1, [0, 1, 2], 3, 1⟩
      (heap_of (fun p => if p = 1 then 2 else invalid_thread_id)) (fun _ => 0) 1
      (by decide) (by decide) (by decide) (by intro p _; rfl) (by decide)
      (by intro j hj; interval_cases j; decide)).2.2.1⟩

theorem acquire_step_ret (c : MultiCall) (w : World) (i : Nat) (o : _cl_base_object) (r : Int)
    (hlt : (i : Int) < c.obj_num) (hpc : w.pc = Pc.acquire i)
    (hret : cl_object_take_ownership (w.heap (c.obj.getD i 0)) c.self 1 CL_FALSE
      = Outcome.ret o r) :
    cl_object_take_multi_ownership_step c w
      = { w with heap := w.heap.store (c.obj.getD i 0) o,
                 ownships := set_ownship w.ownships i 1, pc := .scan 0 } := by
  obtain ⟨heap, own, pc, cr⟩ := w
  subst hpc
  unfold cl_object_take_multi_ownership_step
  dsimp only at hret ⊢
  rw [if_pos hlt, hret]

theorem waiting_step_ret (c : MultiCall) (w : World) (i : Nat) (o : _cl_base_object) (r : Int)
    (hpc : w.pc = Pc.waiting i)
    (hret : cl_object_take_ownership_wake (w.heap (c.obj.getD i 0)) c.self CL_FALSE
      = Outcome.ret o r) :
    cl_object_take_multi_ownership_step c w
      = { w with heap := w.heap.store (c.obj.getD i 0) o,
                 ownships := set_ownship w.ownships i 1, pc := .scan 0 } := by
  obtain ⟨heap, own, pc, cr⟩ := w
  subst hpc
  unfold cl_object_take_multi_ownership_step
  dsimp only at hret ⊢
  rw [hret]

/-- C15: for a calling thread that owned none of the listed objects at entry,
in every schedule: when the blocking acquire on the failed object `i` returns,
whether at once (line 172 finds the object free) or after a wake-up, the call
stands at the head of the scan loop with index 0, the flag of index `i` set,
the caller owns object `i` and owns no other listed object. -/
theorem restart_after_wait (c : MultiCall) (alloc_ok : Bool) (h : Heap)
    (es : List Event) (i : Nat) (hnum : c.obj_num = c.obj.length)
    (hs : c.self ≠ invalid_thread_id) (hes : ∀ e ∈ es, Event.foreign c.self e)
    (hnone : ∀ p ∈ c.obj, (h p).owner ≠ c.self) :
    (∀ o r, (cl_object_take_multi_ownership c alloc_ok h es).pc = Pc.acquire i →
      cl_object_take_ownership
        ((cl_object_take_multi_ownership c alloc_ok h es).heap (c.obj.getD i 0))
        c.self 1 CL_FALSE = Outcome.ret o r →
      (cl_object_take_multi_ownership_step c
        (cl_object_take_multi_ownership c alloc_ok h es)).pc = Pc.scan 0 ∧
      (cl_object_take_multi_ownership_step c
        (cl_object_take_multi_ownership c alloc_ok h es)).ownships i = 1 ∧
      owns (cl_object_take_multi_ownership_step c
        (cl_object_take_multi_ownership c alloc_ok h es)) c.self (c.obj.getD i 0) ∧
      ∀ p ∈ c.obj, p ≠ c.obj.getD i 0 →
        ¬ owns (cl_object_take_multi_ownership_step c
          (cl_object_take_multi_ownership c alloc_ok h es)) c.self p) ∧
    (∀ o r, (cl_object_take_multi_ownership c alloc_ok h es).pc = Pc.waiting i →
      cl_object_take_ownership_wake
        ((cl_object_take_multi_ownership c alloc_ok h es).heap (c.obj.getD i 0))
        c.self CL_FALSE = Outcome.ret o r →
      (cl_object_take_multi_ownership_step c
        (cl_object_take_multi_ownership c alloc_ok h es)).pc = Pc.scan 0 ∧
      (cl_object_take_multi_ownership_step c
        (cl_object_take_multi_ownership c alloc_ok h es)).ownships i = 1 ∧
      owns (cl_object_take_multi_ownership_step c
        (cl_object_take_multi_ownership c alloc_ok h es)) c.self (c.obj.getD i 0) ∧
      ∀ p ∈ c.obj, p ≠ c.obj.getD i 0 →
        ¬ owns (cl_object_take_multi_ownership_step c
          (cl_object_take_multi_ownership c alloc_ok h es)) c.self p) := by
  have hinv := multi_inv_reachable c alloc_ok h es hnum hs hes
  have hrange := pc_in_range_reachable c alloc_ok h es hnum
  generalize cl_object_take_multi_ownership c alloc_ok h es = w at hinv hrange ⊢
  have hfree : ∀ (o : _cl_base_object), o.owner = c.self →
      tracked c h w.heap w.ownships c.obj.length →
      owns { w with heap := w.heap.store (c.obj.getD i 0) o,
                    ownships := set_ownship w.ownships i 1, pc := Pc.scan 0 }
        c.self (c.obj.getD i 0) ∧
      ∀ p ∈ c.obj, p ≠ c.obj.getD i 0 →
        ¬ owns { w with heap := w.heap.store (c.obj.getD i 0) o,
                        ownships := set_ownship w.ownships i 1, pc := Pc.scan 0 }
          c.self p := by
    intro o ho ht
    refine ⟨by unfold owns; dsimp only; rw [Heap.store_at]; exact ho, ?_⟩
    intro p hp hne hown
    unfold owns at hown
    dsimp only at hown
    rw [Heap.store_other _ _ _ _ hne] at hown
    rcases ht p hp hown with hpre | ⟨k, hk1, hk2, _, _⟩
    · exact hnone p hp hpre
    · omega
  constructor
  · intro o r hpc hret
    have hil : i < c.obj.length := by
      unfold pc_in_range at hrange; rw [hpc] at hrange; exact hrange
    have hlt : (i : Int) < c.obj_num := by rw [hnum]; exact_mod_cast hil
    have ht : tracked c h w.heap w.ownships c.obj.length := by
      unfold multi_inv at hinv; rw [hpc] at hinv; exact hinv
    have ho : o.owner = c.self := by
      rcases take_spec (w.heap (c.obj.getD i 0)) c.self 1 CL_FALSE with
        e | ⟨o1, e, ho1⟩ | ⟨_, _, e1⟩ | ⟨e, _⟩
      · rw [e] at hret; cases hret
      · rw [e] at hret; cases hret; exact ho1
      · cases e1
      · rw [e] at hret; cases hret
    rw [acquire_step_ret c w i o r hlt hpc hret]
    exact ⟨rfl, set_ownship_at _ i 1, hfree o ho ht⟩
  · intro o r hpc hret
    have ht : tracked c h w.heap w.ownships c.obj.length := by
      unfold multi_inv at hinv; rw [hpc] at hinv; exact hinv.1
    have ho : o.owner = c.self := by
      rcases wake_spec (w.heap (c.obj.getD i 0)) c.self CL_FALSE with ⟨o1, e, ho1⟩ | e
      · rw [e] at hret; cases hret; exact ho1
      · rw [e] at hret; cases hret
    rw [waiting_step_ret c w i o r hpc hret]
    exact ⟨rfl, set_ownship_at _ i 1, hfree o ho ht⟩

/-- Witness of C15: thread 1 has failed on object 1 (owned by thread 2),
released object 0 and suspended; thread 2 releases object 1; the wake-up of
thread 1 returns, thread 1 owns object 1 alone and stands at index 0. -/
theorem restart_after_wait_witness :
    (cl_object_take_multi_ownership ⟨1, [0, 1], 2, 1⟩ true
      (heap_of (fun p => if p = 1 then 2 else invalid_thread_id))
      [.caller, .caller, .caller, .caller, .caller, .caller, .release 2 1 0]).pc
      = Pc.waiting 1 ∧
    (cl_object_take_multi_ownership_step ⟨1, [0, 1], 2, 1⟩
      (cl_object_take_multi_ownership ⟨1, [0, 1], 2, 1⟩ true
        (heap_of (fun p => if p = 1 then 2 else invalid_thread_id))
        [.caller, .caller, .caller, .caller, .caller, .caller, .release 2 1 0])).pc
      = Pc.scan 0 ∧
    owns (cl_object_take_multi_ownership_step ⟨1, [0, 1], 2, 1⟩
      (cl_object_take_multi_ownership ⟨1, [0, 1], 2, 1⟩ true
        (heap_of (fun p => if p = 1 then 2 else invalid_thread_id))
        [.caller, .caller, .caller, .caller, .caller, .caller, .release 2 1 0])) 1 1 ∧
    ¬ owns (cl_object_take_multi_ownership_step ⟨1, [0, 1], 2, 1⟩
      (cl_object_take_multi_ownership ⟨1, [0, 1], 2, 1⟩ true
        (heap_of (fun p => if p = 1 then 2 else invalid_thread_id))
        [.caller, .caller, .caller, .caller, .caller, .caller, .release 2 1 0])) 1 0 :=
  ⟨by decide,
   ((restart_after_wait ⟨1, [0, 1], 2, 1⟩ true
      (heap_of (fun p => if p = 1 then 2 else invalid_thread_id))
      [.caller, .caller, .caller, .caller, .caller, .caller, .release 2 1 0] 1
      (by decide) (by decide) (by decide) (by decide)).2
      { heap_of (fun _ => invalid_thread_id) 1 with owner := 1 } 1 (by decide) (by decide)).1,
   by decide, by decide⟩

/-! ## The assertions of the call on a list of distinct objects -/

theorem flags_owned_claim (c : MultiCall) (h : Heap) (own : Nat → Int) (i : Nat)
    (o : _cl_base_object) (ho : o.owner = c.self)
    (hold : ∀ k, k < c.obj.length → k ≠ i → own k = 1 → (h (c.obj.getD k 0)).owner = c.self) :
    flags_owned c (h.store (c.obj.getD i 0) o) (set_ownship own i 1) 0 := by
  intro k _ hk hflag
  by_cases e : c.obj.getD k 0 = c.obj.getD i 0
  · rw [e, Heap.store_at]; exact ho
  · rw [Heap.store_other _ _ _ _ e]
    have hki : k ≠ i := fun x => e (by rw [x])
    rw [set_ownship_other own i k 1 hki] at hflag
    exact hold k hk hki hflag

theorem valid_store (c : MultiCall) (h : Heap) (q : Nat) (t : pthread_t)
    (hv : ∀ p ∈ c.obj, CL_OBJECT_IS_VALID (h p) = true) :
    ∀ p ∈ c.obj, CL_OBJECT_IS_VALID (h.store q { h q with owner := t } p) = true := by
  intro p hp
  by_cases e : p = q
  · rw [e, Heap.store_at]
    have := hv p hp
    rw [e] at this
    exact this
  · rw [Heap.store_other _ _ _ _ e]; exact hv p hp

theorem multi_safe_caller (c : MultiCall) (w : World)
    (hnum : c.obj_num = c.obj.length) (hs : c.self ≠ invalid_thread_id)
    (hnodup : c.obj.Nodup) (hw : multi_safe c w) :
    multi_safe c (cl_object_take_multi_ownership_step c w) := by
  have hmem : ∀ j, j < c.obj.length → c.obj.getD j 0 ∈ c.obj := by
    intro j hj
    rw [List.getD_eq_getElem c.obj 0 hj]
    exact List.getElem_mem _
  obtain ⟨heap, own, pc, cr⟩ := w
  obtain ⟨hv, hpc⟩ := hw
  dsimp only at hv
  cases pc with
  | scan i =>
    obtain ⟨hi, hf⟩ := hpc
    dsimp only at hf
    unfold cl_object_take_multi_ownership_step
    dsimp only
    by_cases hlt : (i : Int) < c.obj_num
    · rw [if_pos hlt]
      have hil : i < c.obj.length := by
        rw [hnum] at hlt; exact_mod_cast hlt
      have hvi := hv _ (hmem i hil)
      rcases take_cases (heap (c.obj.getD i 0)) c.self with h | ⟨_, h⟩ | ⟨_, h⟩ | ⟨_, h⟩
      · rw [hvi] at h; cases h
      · rw [take_self _ c.self 0 CL_FALSE hvi h]
        dsimp only
        refine ⟨by rw [Heap.store_same]; exact hv, hil, ?_⟩
        exact flags_owned_claim c heap own i _ h
          (fun k hk _ hflag => hf k (Nat.zero_le k) hk hflag)
      · rw [take_free _ c.self 0 CL_FALSE hvi h]
        dsimp only
        refine ⟨valid_store c heap _ c.self hv, hil, ?_⟩
        exact flags_owned_claim c heap own i _ rfl
          (fun k hk _ hflag => hf k (Nat.zero_le k) hk hflag)
      · rw [take_busy _ c.self 0 CL_FALSE hvi h, if_pos rfl]
        dsimp only
        rw [if_pos (beq_self_eq_true (0 : Int)), Heap.store_same]
        unfold after_scan
        have hne : ((i : Int) == c.obj_num) = false := by
          rw [hnum]
          simp only [beq_eq_false_iff_ne, ne_eq, Nat.cast_inj]
          omega
        rw [hne]
        by_cases hwz : (c.wait == 0) = true
        · simp only [hwz, if_true, Bool.false_eq_true, if_false]
          exact ⟨hv, trivial⟩
        · simp only [hwz, Bool.false_eq_true, if_false]
          refine ⟨hv, hil, ?_, fun k hk _ => by omega⟩
          intro k _ hk hflag
          dsimp only at hflag ⊢
          have hki : k ≠ i := by
            intro e
            rw [e, set_ownship_at] at hflag
            cases hflag
          rw [set_ownship_other own i k 0 hki] at hflag
          exact hf k (Nat.zero_le k) hk hflag
    · rw [if_neg hlt]
      have hil : i = c.obj.length := by
        have : ¬ i < c.obj.length := fun x => hlt (by rw [hnum]; exact_mod_cast x)
        omega
      unfold after_scan
      have he : ((i : Int) == c.obj_num) = true := by
        rw [hnum, hil]; exact beq_self_eq_true _
      rw [if_pos he]
      exact ⟨hv, trivial⟩
  | release i j =>
    obtain ⟨hi, hf, hc⟩ := hpc
    dsimp only at hf hc
    unfold cl_object_take_multi_ownership_step
    dsimp only
    by_cases hj : (j : Int) < c.obj_num
    · rw [if_pos hj]
      have hjl : j < c.obj.length := by
        rw [hnum] at hj; exact_mod_cast hj
      by_cases hone : (own j == 1) = true
      · rw [if_pos hone]
        have hflag : own j = 1 := by simpa using hone
        have hown := hf j (le_refl j) hjl hflag
        rw [release_ok _ c.self CL_FALSE (hv _ (hmem j hjl)) (fun ho => ho.1 hown)]
        refine ⟨valid_store c heap _ invalid_thread_id hv, hi, ?_, ?_⟩
        · intro k hjk hk hfl
          dsimp only at hfl ⊢
          have hkj : k ≠ j := by omega
          rw [set_ownship_other own j k 0 hkj] at hfl
          have hne : c.obj.getD k 0 ≠ c.obj.getD j 0 :=
            fun e => hkj (getD_inj_of_nodup c.obj hnodup k j hk hjl e)
          show ((heap.store _ _) (c.obj.getD k 0)).owner = c.self
          rw [Heap.store_other _ _ _ _ hne]
          exact hf k (by omega) hk hfl
        · intro k hkj hk
          dsimp only
          by_cases e : k = j
          · rw [e, set_ownship_at]; decide
          · rw [set_ownship_other own j k 0 e]
            exact hc k (by omega) hk
      · rw [if_neg hone]
        have hflag : own j ≠ 1 := by simpa using hone
        refine ⟨hv, hi, fun k hjk hk hfl => hf k (by omega) hk hfl, ?_⟩
        intro k hkj hk
        by_cases e : k = j
        · rw [e]; exact hflag
        · exact hc k (by omega) hk
    · rw [if_neg hj]
      have hjl : c.obj.length ≤ j := by
        have : ¬ j < c.obj.length := fun x => hj (by rw [hnum]; exact_mod_cast x)
        omega
      exact ⟨hv, hi, fun k hk hkl => hc k (by omega) hkl⟩
  | acquire i =>
    obtain ⟨hi, hc⟩ := hpc
    dsimp only at hc
    unfold cl_object_take_multi_ownership_step
    dsimp only
    have hlt : (i : Int) < c.obj_num := by rw [hnum]; exact_mod_cast hi
    rw [if_pos hlt]
    have hvi := hv _ (hmem i hi)
    have hold : ∀ k, k < c.obj.length → k ≠ i → own k = 1 →
        (heap (c.obj.getD k 0)).owner = c.self :=
      fun k hk _ hflag => absurd hflag (hc k hk hk)
    rcases take_cases (heap (c.obj.getD i 0)) c.self with h | ⟨_, h⟩ | ⟨_, h⟩ | ⟨_, h⟩
    · rw [hvi] at h; cases h
    · rw [take_self _ c.self 1 CL_FALSE hvi h]
      exact ⟨by dsimp only; rw [Heap.store_same]; exact hv, Nat.zero_le _,
        flags_owned_claim c heap own i _ h hold⟩
    · rw [take_free _ c.self 1 CL_FALSE hvi h]
      exact ⟨valid_store c heap _ c.self hv, Nat.zero_le _,
        flags_owned_claim c heap own i _ rfl hold⟩
    · rw [take_busy _ c.self 1 CL_FALSE hvi h, if_neg (by decide)]
      exact ⟨hv, hi, hc⟩
  | waiting i =>
    obtain ⟨hi, hc⟩ := hpc
    dsimp only at hc
    unfold cl_object_take_multi_ownership_step
    dsimp only
    have hold : ∀ k, k < c.obj.length → k ≠ i → own k = 1 →
        (heap (c.obj.getD k 0)).owner = c.self :=
      fun k hk _ hflag => absurd hflag (hc k hk hk)
    by_cases h : (heap (c.obj.getD i 0)).owner = invalid_thread_id
    · rw [wake_free _ c.self CL_FALSE h]
      exact ⟨valid_store c heap _ c.self hv, Nat.zero_le _,
        flags_owned_claim c heap own i _ rfl hold⟩
    · rw [wake_busy _ c.self CL_FALSE h]
      exact ⟨hv, hi, hc⟩
  | returned r => exact ⟨hv, trivial⟩
  | aborted => exact hpc.elim

theorem foreign_step_owner (c : MultiCall) (w : World) (e : Event)
    (hs : c.self ≠ invalid_thread_id) (he : Event.foreign c.self e)
    (hne : e ≠ Event.caller) (p : Nat) :
    ((w.step c e).heap p).owner = c.self ↔ (w.heap p).owner = c.self := by
  unfold World.step
  by_cases hh : w.halted = true
  · rw [if_pos hh]
  rw [if_neg hh]
  cases e with
  | caller => exact absurd rfl hne
  | take t q wait withlock =>
    have ht : t ≠ c.self := he
    dsimp only
    cases hr : cl_object_take_ownership (w.heap q) t wait withlock with
    | ret o r =>
      exact store_owner_iff w.heap q o c.self
        (take_foreign (w.heap q) o c.self t wait r withlock ht hs hr) p
    | blocked o => exact Iff.rfl
    | fatal o => exact Iff.rfl
  | release t q withlock =>
    have ht : t ≠ c.self := he
    dsimp only
    cases hr : cl_object_release_ownership (w.heap q) t withlock with
    | ret o r =>
      exact store_owner_iff w.heap q o c.self
        (release_foreign (w.heap q) o c.self t withlock ht hs hr) p
    | blocked o => exact Iff.rfl
    | fatal o => exact Iff.rfl

theorem multi_safe_congr (c : MultiCall) (w w1 : World) (hpc : w1.pc = w.pc)
    (hown : w1.ownships = w.ownships)
    (hvalid : ∀ p, (w1.heap p).magic = (w.heap p).magic)
    (howner : ∀ p, (w.heap p).owner = c.self → (w1.heap p).owner = c.self)
    (hw : multi_safe c w) : multi_safe c w1 := by
  obtain ⟨hv, hp⟩ := hw
  have hfo : ∀ lo, flags_owned c w.heap w.ownships lo → flags_owned c w1.heap w1.ownships lo := by
    intro lo hf k hlo hk hflag
    rw [hown] at hflag
    exact howner _ (hf k hlo hk hflag)
  refine ⟨?_, ?_⟩
  · intro p hp1
    have := hv p hp1
    unfold CL_OBJECT_IS_VALID at this ⊢
    rw [hvalid p]
    exact this
  · rw [hpc]
    cases hq : w.pc with
    | scan i => rw [hq] at hp; exact ⟨hp.1, hfo 0 hp.2⟩
    | release i j => rw [hq] at hp; exact ⟨hp.1, hfo j hp.2.1, by rw [hown]; exact hp.2.2⟩
    | acquire i => rw [hq] at hp; exact ⟨hp.1, by rw [hown]; exact hp.2⟩
    | waiting i => rw [hq] at hp; exact ⟨hp.1, by rw [hown]; exact hp.2⟩
    | returned r => trivial
    | aborted => rw [hq] at hp; exact hp

theorem multi_safe_step (c : MultiCall) (w : World) (e : Event)
    (hnum : c.obj_num = c.obj.length) (hs : c.self ≠ invalid_thread_id)
    (hnodup : c.obj.Nodup) (he : Event.foreign c.self e) (hw : multi_safe c w) :
    multi_safe c (w.step c e) := by
  by_cases hc : e = Event.caller
  · subst hc
    unfold World.step
    by_cases hh : w.halted = true
    · rw [if_pos hh]; exact hw
    · rw [if_neg hh]; exact multi_safe_caller c w hnum hs hnodup hw
  · have hfr := world_step_frame c w e
    exact multi_safe_congr c w _ (hfr.2 hc).1 (hfr.2 hc).2 (fun p => (hfr.1 p).2.1)
      (fun p => (foreign_step_owner c w e hs he hc p).2) hw

theorem multi_safe_reachable (c : MultiCall) (h : Heap) (es : List Event)
    (hnum : c.obj_num = c.obj.length) (hs : c.self ≠ invalid_thread_id)
    (hnodup : c.obj.Nodup) (hes : ∀ e ∈ es, Event.foreign c.self e)
    (hlive : ∀ p ∈ c.obj, CL_OBJECT_IS_VALID (h p) = true) :
    multi_safe c (cl_object_take_multi_ownership c true h es) := by
  have hgen : ∀ (es : List Event) (w : World), (∀ e ∈ es, Event.foreign c.self e) →
      multi_safe c w → multi_safe c (World.run c w es) := by
    intro es
    induction es with
    | nil => intro w _ hw; exact hw
    | cons e rest ih =>
      intro w hes hw
      exact ih (w.step c e) (fun x hx => hes x (List.mem_cons_of_mem _ hx))
        (multi_safe_step c w e hnum hs hnodup (hes e (List.mem_cons_self _ _)) hw)
  apply hgen es _ hes
  exact ⟨hlive, Nat.zero_le _, fun k _ _ hflag => by cases hflag⟩

/-- C17 (counterexample): thread 1 asks, blocking, for the list of addresses
0, 0, 1 (object 0 twice), all live; object 1 is owned by thread 2. The scan sets
the flags of indices 0 and 1 and fails at index 2. The release loop releases
object 0 at index 0; thread 3 then takes object 0, which is unowned; the release
loop reaches index 1, whose flag is set, and calls release on object 0, now
owned by thread 3: the owner assertion fails. -/
theorem multi_release_assert_fails_on_repetition :
    (∀ p ∈ [0, 0, 1],
      CL_OBJECT_IS_VALID (heap_of (fun p => if p = 1 then 2 else invalid_thread_id) p) = true) ∧
    (∀ e ∈ [Event.caller, .caller, .caller, .caller, .take 3 0 0 0], Event.foreign 1 e) ∧
    (cl_object_take_multi_ownership ⟨1, [0, 0, 1], 3, 1⟩ true
      (heap_of (fun p => if p = 1 then 2 else invalid_thread_id))
      [.caller, .caller, .caller, .caller, .take 3 0 0 0]).pc = Pc.release 2 1 ∧
    (cl_object_take_multi_ownership ⟨1, [0, 0, 1], 3, 1⟩ true
      (heap_of (fun p => if p = 1 then 2 else invalid_thread_id))
      [.caller, .caller, .caller, .caller, .take 3 0 0 0]).ownships 1 = 1 ∧
    owned_by_other ((cl_object_take_multi_ownership ⟨1, [0, 0, 1], 3, 1⟩ true
      (heap_of (fun p => if p = 1 then 2 else invalid_thread_id))
      [.caller, .caller, .caller, .caller, .take 3 0 0 0]).heap 0) 1 ∧
    (cl_object_take_multi_ownership ⟨1, [0, 0, 1], 3, 1⟩ true
      (heap_of (fun p => if p = 1 then 2 else invalid_thread_id))
      [.caller, .caller, .caller, .caller, .take 3 0 0 0, .caller]).pc = Pc.aborted := by
  refine ⟨by decide, by decide, by decide, by decide, by decide, by decide⟩

/-- C17 (amended): for every list of distinct live objects, a successful
bookkeeping allocation and other threads that only take and release through
`cl_object_take_ownership` and `cl_object_release_ownership`, in every schedule
no assertion of the call fails: the program point is never `aborted`; whenever
the release loop stands at an index whose flag is set, the object there is owned
by the caller, so the release that follows returns; and whenever the call
stands before the blocking acquire, `i < obj_num` holds. -/
theorem multi_asserts_hold (c : MultiCall) (h : Heap) (es : List Event)
    (hnum : c.obj_num = c.obj.length) (hs : c.self ≠ invalid_thread_id)
    (hnodup : c.obj.Nodup) (hes : ∀ e ∈ es, Event.foreign c.self e)
    (hlive : ∀ p ∈ c.obj, CL_OBJECT_IS_VALID (h p) = true) :
    (cl_object_take_multi_ownership c true h es).pc ≠ Pc.aborted ∧
    (∀ i j, (cl_object_take_multi_ownership c true h es).pc = Pc.release i j →
      (j : Int) < c.obj_num →
      (cl_object_take_multi_ownership c true h es).ownships j = 1 →
      owns (cl_object_take_multi_ownership c true h es) c.self (c.obj.getD j 0) ∧
      cl_object_release_ownership
        ((cl_object_take_multi_ownership c true h es).heap (c.obj.getD j 0)) c.self CL_FALSE
        = Outcome.ret
          { (cl_object_take_multi_ownership c true h es).heap (c.obj.getD j 0) with
            owner := invalid_thread_id } ()) ∧
    (∀ i, (cl_object_take_multi_ownership c true h es).pc = Pc.acquire i →
      (i : Int) < c.obj_num) := by
  have hsafe := multi_safe_reachable c h es hnum hs hnodup hes hlive
  generalize cl_object_take_multi_ownership c true h es = w at hsafe ⊢
  obtain ⟨hv, hp⟩ := hsafe
  refine ⟨?_, ?_, ?_⟩
  · intro hpc
    rw [hpc] at hp
    exact hp
  · intro i j hpc hj hflag
    rw [hpc] at hp
    have hjl : j < c.obj.length := by
      rw [hnum] at hj; exact_mod_cast hj
    have hown := hp.2.1 j (le_refl j) hjl hflag
    have hmem : c.obj.getD j 0 ∈ c.obj := by
      rw [List.getD_eq_getElem c.obj 0 hjl]
      exact List.getElem_mem _
    exact ⟨hown, release_ok _ c.self CL_FALSE (hv _ hmem) (fun ho => ho.1 hown)⟩
  · intro i hpc
    rw [hpc] at hp
    rw [hnum]
    exact_mod_cast hp.1

/-- Witness of C17 (amended): thread 1 asks, blocking, for the distinct objects
0, 1, 2, object 2 being owned by thread 2; with thread 3 taking and releasing
an object outside the list in between, the release loop reaches index 1 with the
flag set and object 1 owned by the caller, and no assertion has failed. -/
theorem multi_asserts_hold_witness :
    (cl_object_take_multi_ownership ⟨1, [0, 1, 2], 3, 1⟩ true
      (heap_of (fun p => if p = 2 then 2 else invalid_thread_id))
      [.caller, .caller, .caller, .take 3 5 0 0, .caller, .release 3 5 0]).pc
      = Pc.release 2 1 ∧
    (cl_object_take_multi_ownership ⟨1, [0, 1, 2], 3, 1⟩ true
      (heap_of (fun p => if p = 2 then 2 else invalid_thread_id))
      [.caller, .caller, .caller, .take 3 5 0 0, .caller, .release 3 5 0]).pc
      ≠ Pc.aborted :=
  ⟨by decide,
   (multi_asserts_hold ⟨1, [0, 1, 2], 3, 1⟩
      (heap_of (fun p => if p = 2 then 2 else invalid_thread_id))
      [.caller, .caller, .caller, .take 3 5 0 0, .caller, .release 3 5 0]
      (by decide) (by decide) (by decide) (by decide) (by intro p _; rfl)).1⟩

/-! ## Two threads: bookkeeping lemmas -/

theorem multi_inv_flags (c : MultiCall) (h0 heap : Heap) (own own1 : Nat → Int) (pc : Pc)
    (cr cr1 : Bool) (hag : ∀ k, k < c.obj.length → own1 k = own k)
    (hw : multi_inv c h0 ⟨heap, own, pc, cr⟩) : multi_inv c h0 ⟨heap, own1, pc, cr1⟩ := by
  have ht : ∀ lo, tracked c h0 heap own lo → tracked c h0 heap own1 lo := by
    intro lo ht q hq hown
    rcases ht q hq hown with hp | ⟨k, hk1, hk2, hk3, hk4⟩
    · exact Or.inl hp
    · exact Or.inr ⟨k, hk1, hk2, hk3, by rw [hag k hk2]; exact hk4⟩
  cases pc with
  | scan i => exact ⟨ht 0 hw.1, hw.2⟩
  | release i j => exact ht j hw
  | acquire i => exact ht _ hw
  | waiting i => exact ⟨ht _ hw.1, hw.2⟩
  | returned r => exact hw
  | aborted => trivial

theorem multi_safe_flags (c : MultiCall) (heap : Heap) (own own1 : Nat → Int) (pc : Pc)
    (cr cr1 : Bool) (hag : ∀ k, k < c.obj.length → own1 k = own k)
    (hw : multi_safe c ⟨heap, own, pc, cr⟩) : multi_safe c ⟨heap, own1, pc, cr1⟩ := by
  obtain ⟨hv, hp⟩ := hw
  have hfo : ∀ lo, flags_owned c heap own lo → flags_owned c heap own1 lo := by
    intro lo hf k hlo hk hflag
    rw [hag k hk] at hflag
    exact hf k hlo hk hflag
  have hfc : ∀ hi, flags_clear c own hi → flags_clear c own1 hi := by
    intro hi hf k hk hkl
    rw [hag k hkl]
    exact hf k hk hkl
  refine ⟨hv, ?_⟩
  cases pc with
  | scan i => exact ⟨hp.1, hfo 0 hp.2⟩
  | release i j => exact ⟨hp.1, hfo j hp.2.1, hfc j hp.2.2⟩
  | acquire i => exact ⟨hp.1, hfc _ hp.2⟩
  | waiting i => exact ⟨hp.1, hfc _ hp.2⟩
  | returned r => trivial
  | aborted => exact hp

theorem after_scan_pc (c : MultiCall) (w : World) (i : Nat) (hw : c.wait ≠ 0) :
    (after_scan c w i).pc = Pc.returned 1 ∨ (after_scan c w i).pc = Pc.release i 0 := by
  unfold after_scan
  by_cases he : ((i : Int) == c.obj_num) = true
  · rw [if_pos he]; exact Or.inl rfl
  · rw [if_neg he]
    have hwz : ¬ (c.wait == 0) = true := by simpa using hw
    rw [if_neg hwz]; exact Or.inr rfl

/-- The program point a step of a blocking call leads to. -/
theorem caller_step_pc (c : MultiCall) (w : World) (hw : c.wait ≠ 0) :
    (∀ i, w.pc = Pc.scan i →
      (cl_object_take_multi_ownership_step c w).pc = Pc.scan (i + 1) ∨
      (cl_object_take_multi_ownership_step c w).pc = Pc.returned 1 ∨
      (cl_object_take_multi_ownership_step c w).pc = Pc.release i 0 ∨
      (cl_object_take_multi_ownership_step c w).pc = Pc.aborted) ∧
    (∀ i j, w.pc = Pc.release i j →
      (cl_object_take_multi_ownership_step c w).pc = Pc.release i (j + 1) ∨
      (cl_object_take_multi_ownership_step c w).pc = Pc.acquire i ∨
      (cl_object_take_multi_ownership_step c w).pc = Pc.aborted) ∧
    (∀ i, w.pc = Pc.acquire i →
      (cl_object_take_multi_ownership_step c w).pc = Pc.scan 0 ∨
      (cl_object_take_multi_ownership_step c w).pc = Pc.waiting i ∨
      (cl_object_take_multi_ownership_step c w).pc = Pc.aborted) ∧
    (∀ i, w.pc = Pc.waiting i →
      (cl_object_take_multi_ownership_step c w).pc = Pc.scan 0 ∨
      (cl_object_take_multi_ownership_step c w).pc = Pc.waiting i) := by
  obtain ⟨heap, own, pc, cr⟩ := w
  refine ⟨?_, ?_, ?_, ?_⟩
  · intro i hpc
    cases hpc
    unfold cl_object_take_multi_ownership_step
    dsimp only
    by_cases hi : (i : Int) < c.obj_num
    · rw [if_pos hi]
      rcases take_spec (heap (c.obj.getD i 0)) c.self 0 CL_FALSE with
        h | ⟨o, h, _⟩ | ⟨h, _, _⟩ | ⟨_, hne⟩
      · rw [h]; exact Or.inr (Or.inr (Or.inr rfl))
      · rw [h]; exact Or.inl rfl
      · rw [h]
        dsimp only
        rw [if_pos (beq_self_eq_true (0 : Int))]
        rcases after_scan_pc c _ i hw with e | e
        · exact Or.inr (Or.inl e)
        · exact Or.inr (Or.inr (Or.inl e))
      · exact absurd rfl hne
    · rw [if_neg hi]
      rcases after_scan_pc c _ i hw with e | e
      · exact Or.inr (Or.inl e)
      · exact Or.inr (Or.inr (Or.inl e))
  · intro i j hpc
    cases hpc
    unfold cl_object_take_multi_ownership_step
    dsimp only
    by_cases hj : (j : Int) < c.obj_num
    · rw [if_pos hj]
      by_cases hone : (own j == 1) = true
      · rw [if_pos hone]
        rcases release_spec (heap (c.obj.getD j 0)) c.self CL_FALSE with h | h <;> rw [h]
        · exact Or.inr (Or.inr rfl)
        · exact Or.inl rfl
      · rw [if_neg hone]; exact Or.inl rfl
    · rw [if_neg hj]; exact Or.inr (Or.inl rfl)
  · intro i hpc
    cases hpc
    unfold cl_object_take_multi_ownership_step
    dsimp only
    by_cases hi : (i : Int) < c.obj_num
    · rw [if_pos hi]
      cases cl_object_take_ownership (heap (c.obj.getD i 0)) c.self 1 CL_FALSE with
      | ret o r => exact Or.inl rfl
      | blocked o => exact Or.inr (Or.inl rfl)
      | fatal o => exact Or.inr (Or.inr rfl)
    · rw [if_neg hi]; exact Or.inr (Or.inr rfl)
  · intro i hpc
    cases hpc
    unfold cl_object_take_multi_ownership_step
    dsimp only
    rcases wake_shape (heap (c.obj.getD i 0)) c.self CL_FALSE with h | h <;> rw [h]
    · exact Or.inl rfl
    · exact Or.inr rfl

theorem thread_step_in_call (c : MultiCall) (h : Heap) (f : Frame)
    (hpc : ∀ r, f.pc ≠ Pc.returned r) :
    thread_step c h f =
      ((cl_object_take_multi_ownership_step c ⟨h, f.ownships, f.pc, false⟩).heap,
       { own0 := (cl_object_take_multi_ownership_step c ⟨h, f.ownships, f.pc, false⟩).ownships 0,
         own1 := (cl_object_take_multi_ownership_step c ⟨h, f.ownships, f.pc, false⟩).ownships 1,
         pc := (cl_object_take_multi_ownership_step c ⟨h, f.ownships, f.pc, false⟩).pc,
         post := f.post }) := by
  obtain ⟨o0, o1, pc, post⟩ := f
  cases pc with
  | returned r => exact absurd rfl (hpc r)
  | scan i => rfl
  | release i j => rfl
  | acquire i => rfl
  | waiting i => rfl
  | aborted => rfl

theorem thread_step_released (c : MultiCall) (h : Heap) (f : Frame)
    (hpc : f.pc = Pc.returned 1) (hpost : f.post < 2)
    (hv : CL_OBJECT_IS_VALID (h (c.obj.getD f.post 0)) = true)
    (ho : (h (c.obj.getD f.post 0)).owner = c.self) :
    thread_step c h f =
      (h.store (c.obj.getD f.post 0)
          { h (c.obj.getD f.post 0) with owner := invalid_thread_id },
       { f with post := f.post + 1 }) := by
  obtain ⟨o0, o1, pc, post⟩ := f
  dsimp only at hpc hpost hv ho
  subst hpc
  unfold thread_step
  dsimp only
  have hcond : ((1 : Int) == 1 && decide (post < 2)) = true := by
    simp [hpost]
  rw [if_pos hcond, release_ok _ c.self CL_FALSE hv (fun hb => hb.1 ho)]

theorem thread_step_done (c : MultiCall) (h : Heap) (f : Frame) (r : Int)
    (hpc : f.pc = Pc.returned r) (hdone : r ≠ 1 ∨ ¬ f.post < 2) :
    thread_step c h f = (h, f) := by
  obtain ⟨o0, o1, pc, post⟩ := f
  dsimp only at hpc hdone
  subst hpc
  unfold thread_step
  dsimp only
  have hcond : ¬ ((r == 1 && decide (post < 2)) = true) := by
    rcases hdone with h1 | h1
    · simp [h1]
    · simp [h1]
  rw [if_neg hcond]

theorem thread_step_write (c : MultiCall) (h : Heap) (f : Frame) :
    owner_write c h (thread_step c h f).1 := by
  by_cases hret : ∃ r, f.pc = Pc.returned r
  · obtain ⟨r, hr⟩ := hret
    by_cases hgo : r = 1 ∧ f.post < 2
    · obtain ⟨h1, hpost⟩ := hgo
      subst h1
      by_cases hv : CL_OBJECT_IS_VALID (h (c.obj.getD f.post 0)) = true
      · by_cases hb : owned_by_other (h (c.obj.getD f.post 0)) c.self
        · left
          obtain ⟨o0, o1, pc, post⟩ := f
          dsimp only at hr hpost hv hb
          subst hr
          unfold thread_step
          dsimp only
          rw [release_other _ c.self CL_FALSE hb]
          split_ifs <;> rfl
        · right
          refine ⟨f.post, invalid_thread_id, ?_, Or.inr rfl, available_of_not_busy _ _ hb⟩
          obtain ⟨o0, o1, pc, post⟩ := f
          dsimp only at hr hpost hv hb ⊢
          subst hr
          unfold thread_step
          dsimp only
          have hcond : ((1 : Int) == 1 && decide (post < 2)) = true := by
            simp [hpost]
          rw [if_pos hcond, release_ok _ c.self CL_FALSE hv hb]
      · left
        obtain ⟨o0, o1, pc, post⟩ := f
        dsimp only at hr hpost hv
        subst hr
        unfold thread_step
        dsimp only
        rw [release_dead _ c.self CL_FALSE (by simpa using hv)]
        split_ifs <;> rfl
    · left
      rw [thread_step_done c h f r hr (by
        by_cases h1 : r = 1
        · exact Or.inr (fun hp => hgo ⟨h1, hp⟩)
        · exact Or.inl h1)]
  · have hpc : ∀ r, f.pc ≠ Pc.returned r := fun r hr => hret ⟨r, hr⟩
    rw [thread_step_in_call c h f hpc]
    rcases caller_step_heap c ⟨h, f.ownships, f.pc, false⟩ with e | ⟨k, t, _, e, ht, hav⟩
    · exact Or.inl e
    · exact Or.inr ⟨k, t, e, ht, hav⟩

theorem owner_write_same (c : MultiCall) (h h1 : Heap) (hw : owner_write c h h1) (p : Nat) :
    same_but_owner (h1 p) (h p) := by
  rcases hw with e | ⟨k, t, e, _, _⟩ <;> rw [e]
  · exact same_but_owner_refl _
  · by_cases hp : p = c.obj.getD k 0
    · rw [hp, Heap.store_at]; exact same_but_owner_set _ t
    · rw [Heap.store_other _ _ _ _ hp]; exact same_but_owner_refl _

theorem owner_write_other (c : MultiCall) (h h1 : Heap) (hw : owner_write c h h1)
    (u : pthread_t) (hu : u ≠ c.self) (hu1 : u ≠ invalid_thread_id) (p : Nat) :
    (h1 p).owner = u ↔ (h p).owner = u := by
  rcases hw with e | ⟨k, t, e, ht, hav⟩ <;> rw [e]
  by_cases hp : p = c.obj.getD k 0
  · rw [hp, Heap.store_at]
    constructor
    · intro e1
      exfalso
      rcases ht with ht | ht
      · exact hu (e1.symm.trans ht)
      · exact hu1 (e1.symm.trans ht)
    · intro e1
      exfalso
      rcases hav with hav | hav
      · exact hu1 (e1.symm.trans hav)
      · exact hu (e1.symm.trans hav)
  · rw [Heap.store_other _ _ _ _ hp]

theorem owner_write_dom (c : MultiCall) (h h1 : Heap) (hw : owner_write c h h1)
    (a b : pthread_t) (hc : c.self = a ∨ c.self = b) (hd : own_dom a b h) :
    own_dom a b h1 := by
  rcases hw with e | ⟨k, t, e, ht, _⟩ <;> rw [e]
  · exact hd
  · intro p
    by_cases hp : p = c.obj.getD k 0
    · rw [hp, Heap.store_at]
      rcases ht with ht | ht
      · rcases hc with hc | hc
        · exact Or.inr (Or.inl (ht.trans hc))
        · exact Or.inr (Or.inr (ht.trans hc))
      · exact Or.inl ht
    · rw [Heap.store_other _ _ _ _ hp]; exact hd p

theorem getD_duo (l : List Nat) (hl : l = [0, 1] ∨ l = [1, 0]) (k : Nat) :
    l.getD k 0 = 0 ∨ l.getD k 0 = 1 := by
  rcases hl with e | e <;> subst e <;> rcases k with _ | _ | k <;> simp

theorem owner_write_xy (c : MultiCall) (x y : _cl_base_object) (h1 : Heap)
    (hl : c.obj = [0, 1] ∨ c.obj = [1, 0]) (hw : owner_write c (heap_xy x y) h1) :
    heap_xy (h1 0) (h1 1) = h1 := by
  funext p
  unfold heap_xy
  by_cases h0 : p = 0
  · rw [if_pos h0, h0]
  · rw [if_neg h0]
    by_cases hp1 : p = 1
    · rw [if_pos hp1, hp1]
    · rw [if_neg hp1]
      rcases hw with e | ⟨k, t, e, _, _⟩ <;> rw [e]
      · unfold heap_xy
        rw [if_neg h0, if_neg hp1]
      · have hq := getD_duo c.obj hl k
        have hne : p ≠ c.obj.getD k 0 := by
          rcases hq with hq | hq <;> rw [hq]
          · exact h0
          · exact hp1
        rw [Heap.store_other _ _ _ _ hne]
        unfold heap_xy
        rw [if_neg h0, if_neg hp1]

/-! ## Two threads: the invariant -/

theorem duo_call_facts (c : MultiCall) (hc : duo_call c) :
    c.obj_num = c.obj.length ∧ c.obj.length = 2 ∧ c.obj.Nodup ∧ c.wait ≠ 0 ∧
      c.self ≠ invalid_thread_id := by
  obtain ⟨hl, hn, hw, hs⟩ := hc
  refine ⟨?_, ?_, ?_, by rw [hw]; decide, hs⟩
  · rcases hl with e | e <;> rw [hn, e] <;> rfl
  · rcases hl with e | e <;> rw [e] <;> rfl
  · rcases hl with e | e <;> rw [e] <;> decide

theorem returned_is_success (c : MultiCall) (w : World) (hw : c.wait ≠ 0)
    (hpc : ∀ r, w.pc ≠ Pc.returned r) (r : Int)
    (h : (cl_object_take_multi_ownership_step c w).pc = Pc.returned r) : r = 1 := by
  have hall := caller_step_pc c w hw
  cases hq : w.pc with
  | scan i =>
    rcases hall.1 i hq with e | e | e | e <;> rw [e] at h <;> cases h
    rfl
  | release i j =>
    rcases hall.2.1 i j hq with e | e | e <;> rw [e] at h <;> cases h
  | acquire i =>
    rcases hall.2.2.1 i hq with e | e | e <;> rw [e] at h <;> cases h
  | waiting i =>
    rcases hall.2.2.2 i hq with e | e <;> rw [e] at h <;> cases h
  | returned r1 => exact absurd hq (hpc r1)
  | aborted =>
    obtain ⟨heap, own, pc, cr⟩ := w
    cases hq
    cases h

theorem thread_inv_other (c c2 : MultiCall) (h h1 : Heap) (g : Frame)
    (hw : owner_write c h h1) (hne : c2.self ≠ c.self) (hs2 : c2.self ≠ invalid_thread_id)
    (hi : thread_inv c2 h g) : thread_inv c2 h1 g := by
  have hiff := owner_write_other c h h1 hw c2.self hne hs2
  obtain ⟨hsafe, hret, hcall⟩ := hi
  refine ⟨?_, ?_, ?_⟩
  · exact multi_safe_congr c2 ⟨h, g.ownships, g.pc, false⟩ ⟨h1, g.ownships, g.pc, false⟩
      rfl rfl (fun p => (owner_write_same c h h1 hw p).2.1) (fun p => (hiff p).2) hsafe
  · intro r hr
    obtain ⟨h1r, hp, hk⟩ := hret r hr
    exact ⟨h1r, hp, fun k hk2 => (hiff _).trans (hk k hk2)⟩
  · intro hpc
    obtain ⟨hp0, hinv⟩ := hcall hpc
    exact ⟨hp0, multi_inv_env c2 _ ⟨h, g.ownships, g.pc, false⟩ h1 false hiff hinv⟩

theorem frame_flags_agree (w : World) (post : Nat) (k : Nat) (hk : k < 2) :
    Frame.ownships ⟨w.ownships 0, w.ownships 1, w.pc, post⟩ k = w.ownships k := by
  unfold Frame.ownships
  rcases k with _ | _ | k
  · rfl
  · rfl
  · omega

theorem thread_inv_self (c : MultiCall) (h : Heap) (f : Frame) (hc : duo_call c)
    (hi : thread_inv c h f) :
    thread_inv c (thread_step c h f).1 (thread_step c h f).2 := by
  obtain ⟨hnum, hlen, hnodup, hwait, hs⟩ := duo_call_facts c hc
  have hmem : ∀ j, j < 2 → c.obj.getD j 0 ∈ c.obj := by
    intro j hj
    rw [List.getD_eq_getElem c.obj 0 (by omega)]
    exact List.getElem_mem _
  obtain ⟨hsafe, hret, hcall⟩ := hi
  by_cases hex : ∃ r, f.pc = Pc.returned r
  · obtain ⟨r, hr⟩ := hex
    obtain ⟨hr1, hpost, hown⟩ := hret r hr
    subst hr1
    by_cases hp2 : f.post < 2
    · have hv := hsafe.1 _ (hmem f.post hp2)
      have ho := (hown f.post hp2).2 (le_refl _)
      rw [thread_step_released c h f hr hp2 hv ho]
      refine ⟨⟨valid_store c h _ invalid_thread_id hsafe.1, ?_⟩, ?_, ?_⟩
      · show match f.pc with
          | .scan i => _
          | .release i j => _
          | .acquire i => _
          | .waiting i => _
          | .returned _ => True
          | .aborted => False
        rw [hr]
        trivial
      · intro r1 hr1
        have hr1' : f.pc = Pc.returned r1 := hr1
        rw [hr] at hr1'
        cases hr1'
        refine ⟨rfl, by show f.post + 1 ≤ 2; omega, ?_⟩
        intro k hk
        show ((h.store _ _) (c.obj.getD k 0)).owner = c.self ↔ f.post + 1 ≤ k
        by_cases hkp : k = f.post
        · rw [hkp, Heap.store_at]
          constructor
          · intro e; exact absurd e.symm hs
          · intro e; omega
        · have hne : c.obj.getD k 0 ≠ c.obj.getD f.post 0 :=
            fun e => hkp (getD_inj_of_nodup c.obj hnodup k f.post (by omega) (by omega) e)
          rw [Heap.store_other _ _ _ _ hne]
          constructor
          · intro e
            have := (hown k hk).1 e
            omega
          · intro e
            exact (hown k hk).2 (by omega)
      · intro hpc
        exact absurd hr (hpc 1)
    · rw [thread_step_done c h f 1 hr (Or.inr hp2)]
      exact ⟨hsafe, hret, hcall⟩
  · have hpc : ∀ r, f.pc ≠ Pc.returned r := fun r hr => hex ⟨r, hr⟩
    obtain ⟨hp0, hinv⟩ := hcall hpc
    rw [thread_step_in_call c h f hpc]
    have hsafe1 := multi_safe_caller c ⟨h, f.ownships, f.pc, false⟩ hnum hs hnodup hsafe
    have hinv1 := multi_inv_caller c _ ⟨h, f.ownships, f.pc, false⟩ hnum hs hinv
    have hsucc := returned_is_success c ⟨h, f.ownships, f.pc, false⟩ hwait hpc
    generalize cl_object_take_multi_ownership_step c ⟨h, f.ownships, f.pc, false⟩ = w1
      at hsafe1 hinv1 hsucc ⊢
    have hag : ∀ k, k < c.obj.length →
        Frame.ownships ⟨w1.ownships 0, w1.ownships 1, w1.pc, f.post⟩ k = w1.ownships k :=
      fun k hk => frame_flags_agree w1 f.post k (by omega)
    refine ⟨multi_safe_flags c w1.heap w1.ownships _ w1.pc w1.crashed false hag hsafe1, ?_, ?_⟩
    · intro r hr
      have hr' : w1.pc = Pc.returned r := hr
      have hr1 := hsucc r hr'
      subst hr1
      refine ⟨rfl, by show f.post ≤ 2; omega, ?_⟩
      intro k hk
      show (w1.heap (c.obj.getD k 0)).owner = c.self ↔ f.post ≤ k
      unfold multi_inv at hinv1
      rw [hr'] at hinv1
      constructor
      · intro _; omega
      · intro _; exact hinv1 rfl k (by omega) (by omega)
    · intro _
      exact ⟨hp0, multi_inv_flags c _ w1.heap w1.ownships _ w1.pc w1.crashed false hag hinv1⟩

theorem duo_call_A (a : pthread_t) (ha : a ≠ invalid_thread_id) : duo_call (call_A a) :=
  ⟨Or.inl rfl, rfl, rfl, ha⟩

theorem duo_call_B (b : pthread_t) (hb : b ≠ invalid_thread_id) : duo_call (call_B b) :=
  ⟨Or.inr rfl, rfl, rfl, hb⟩

theorem Duo.inv_step (a b : pthread_t) (s : Duo) (t : Who) (hab : a ≠ b)
    (ha : a ≠ invalid_thread_id) (hb : b ≠ invalid_thread_id) (hi : Duo.inv a b s) :
    Duo.inv a b (Duo.step a b s t) := by
  unfold Duo.step
  by_cases hh : s.halted = true
  · rw [if_pos hh]; exact hi
  rw [if_neg hh]
  obtain ⟨hA, hB, hd⟩ := hi
  cases t with
  | A =>
    have hw := thread_step_write (call_A a) s.heap s.a
    have hxy : heap_xy ((thread_step (call_A a) (heap_xy s.x s.y) s.a).1 0)
        ((thread_step (call_A a) (heap_xy s.x s.y) s.a).1 1)
          = (thread_step (call_A a) (heap_xy s.x s.y) s.a).1 :=
      owner_write_xy (call_A a) s.x s.y _ (Or.inl rfl) hw
    unfold Duo.inv Duo.heap
    dsimp only
    rw [hxy]
    exact ⟨thread_inv_self (call_A a) s.heap s.a (duo_call_A a ha) hA,
      thread_inv_other (call_A a) (call_B b) s.heap _ s.b hw (fun e => hab e.symm) hb hB,
      owner_write_dom (call_A a) s.heap _ hw a b (Or.inl rfl) hd⟩
  | B =>
    have hw := thread_step_write (call_B b) s.heap s.b
    have hxy : heap_xy ((thread_step (call_B b) (heap_xy s.x s.y) s.b).1 0)
        ((thread_step (call_B b) (heap_xy s.x s.y) s.b).1 1)
          = (thread_step (call_B b) (heap_xy s.x s.y) s.b).1 :=
      owner_write_xy (call_B b) s.x s.y _ (Or.inr rfl) hw
    unfold Duo.inv Duo.heap
    dsimp only
    rw [hxy]
    exact ⟨thread_inv_other (call_B b) (call_A a) s.heap _ s.a hw hab ha hA,
      thread_inv_self (call_B b) s.heap s.b (duo_call_B b hb) hB,
      owner_write_dom (call_B b) s.heap _ hw a b (Or.inr rfl) hd⟩

theorem thread_inv_start (c : MultiCall) (x y : _cl_base_object) (hc : duo_call c)
    (hx : CL_OBJECT_IS_VALID x = true) (hy : CL_OBJECT_IS_VALID y = true)
    (hxo : x.owner = invalid_thread_id) (hyo : y.owner = invalid_thread_id) :
    thread_inv c (heap_xy x y) ⟨0, 0, .scan 0, 0⟩ := by
  obtain ⟨hnum, hlen, hnodup, hwait, hs⟩ := duo_call_facts c hc
  have hfree : ∀ p, (heap_xy x y p).owner = invalid_thread_id := by
    intro p
    unfold heap_xy
    split_ifs
    · exact hxo
    · exact hyo
    · rfl
  have hflag : ∀ k, Frame.ownships ⟨0, 0, .scan 0, 0⟩ k ≠ 1 := by
    intro k
    unfold Frame.ownships
    dsimp only
    split_ifs <;> decide
  refine ⟨⟨?_, Nat.zero_le _, fun k _ _ hf => absurd hf (hflag k)⟩, ?_, ?_⟩
  · intro p hp
    have hp01 : p = 0 ∨ p = 1 := by
      rcases hc.1 with e | e <;> rw [e] at hp <;> simp at hp <;> omega
    unfold heap_xy
    rcases hp01 with e | e <;> subst e
    · exact hx
    · exact hy
  · intro r hr
    cases hr
  · intro _
    refine ⟨rfl, ?_, owned_below_zero c _⟩
    intro p _ hown
    exact absurd ((hfree p).symm.trans hown) (fun e => hs e.symm)

theorem Duo.inv_reachable (a b : pthread_t) (x y : _cl_base_object) (ts : List Who)
    (hab : a ≠ b) (ha : a ≠ invalid_thread_id) (hb : b ≠ invalid_thread_id)
    (hx : CL_OBJECT_IS_VALID x = true) (hy : CL_OBJECT_IS_VALID y = true)
    (hxo : x.owner = invalid_thread_id) (hyo : y.owner = invalid_thread_id) :
    Duo.inv a b (Duo.run a b (Duo.start x y) ts) := by
  have hgen : ∀ (ts : List Who) (s : Duo), Duo.inv a b s → Duo.inv a b (Duo.run a b s ts) := by
    intro ts
    induction ts with
    | nil => intro s hs; exact hs
    | cons t rest ih =>
      intro s hs
      exact ih (Duo.step a b s t) (Duo.inv_step a b s t hab ha hb hs)
  apply hgen
  refine ⟨thread_inv_start (call_A a) x y (duo_call_A a ha) hx hy hxo hyo,
    thread_inv_start (call_B b) x y (duo_call_B b hb) hx hy hxo hyo, ?_⟩
  intro p
  left
  show (heap_xy x y p).owner = invalid_thread_id
  unfold heap_xy
  split_ifs
  · exact hxo
  · exact hyo
  · rfl

/-! ## Two threads: no deadlock, but no guaranteed termination -/

theorem duo_cover (c : MultiCall) (hl : c.obj = [0, 1] ∨ c.obj = [1, 0]) (P : Nat → Prop)
    (hP : ∀ k, k < 2 → P (c.obj.getD k 0)) : P 0 ∧ P 1 := by
  rcases hl with e | e
  · have h0 := hP 0 (by decide)
    have h1 := hP 1 (by decide)
    rw [e] at h0 h1
    exact ⟨h0, h1⟩
  · have h0 := hP 0 (by decide)
    have h1 := hP 1 (by decide)
    rw [e] at h0 h1
    exact ⟨h1, h0⟩

/-- A thread whose step changes nothing of its own frame owns neither object,
and it is through or suspended on an object that has an owner. -/
theorem stuck_thread (c : MultiCall) (h : Heap) (f : Frame) (hc : duo_call c)
    (hi : thread_inv c h f) (hst : (thread_step c h f).2 = f) :
    ((h 0).owner ≠ c.self ∧ (h 1).owner ≠ c.self) ∧
    (f.finished ∨ ∃ p, (p = 0 ∨ p = 1) ∧ (h p).owner ≠ invalid_thread_id) := by
  obtain ⟨hnum, hlen, hnodup, hwait, hs⟩ := duo_call_facts c hc
  have hmem : ∀ j, j < 2 → c.obj.getD j 0 ∈ c.obj := by
    intro j hj
    rw [List.getD_eq_getElem c.obj 0 (by omega)]
    exact List.getElem_mem _
  obtain ⟨hsafe, hret, hcall⟩ := hi
  by_cases hex : ∃ r, f.pc = Pc.returned r
  · obtain ⟨r, hr⟩ := hex
    obtain ⟨hr1, hpost, hown⟩ := hret r hr
    subst hr1
    have hp2 : f.post = 2 := by
      by_contra hne
      have hlt : f.post < 2 := by omega
      have hv := hsafe.1 _ (hmem f.post hlt)
      have ho := (hown f.post hlt).2 (le_refl _)
      rw [thread_step_released c h f hr hlt hv ho] at hst
      have := congrArg Frame.post hst
      dsimp only at this
      omega
    refine ⟨duo_cover c hc.1 (fun p => (h p).owner ≠ c.self) ?_, Or.inl ⟨hr, hp2⟩⟩
    intro k hk e
    have := (hown k hk).1 e
    omega
  · have hpc : ∀ r, f.pc ≠ Pc.returned r := fun r hr => hex ⟨r, hr⟩
    obtain ⟨hp0, hinv⟩ := hcall hpc
    rw [thread_step_in_call c h f hpc] at hst
    have hpc1 : (cl_object_take_multi_ownership_step c ⟨h, f.ownships, f.pc, false⟩).pc = f.pc :=
      congrArg Frame.pc hst
    have hall := caller_step_pc c ⟨h, f.ownships, f.pc, false⟩ hwait
    cases hq : f.pc with
    | scan i =>
      exfalso
      rcases hall.1 i hq with e | e | e | e <;>
        have h2 := e.symm.trans (hpc1.trans hq) <;>
        cases h2
    | release i j =>
      exfalso
      rcases hall.2.1 i j hq with e | e | e <;>
        have h2 := e.symm.trans (hpc1.trans hq) <;>
        cases h2
    | acquire i =>
      exfalso
      rcases hall.2.2.1 i hq with e | e | e <;>
        have h2 := e.symm.trans (hpc1.trans hq) <;>
        cases h2
    | waiting i =>
      have hsafe2 := hsafe.2
      have hinv2 := hinv
      unfold multi_inv at hinv2
      dsimp only at hsafe2 hinv2
      rw [hq] at hsafe2 hinv2
      have hil : i < 2 := by
        have := hsafe2.1
        omega
      have hnone : ∀ k, k < 2 → (h (c.obj.getD k 0)).owner ≠ c.self := by
        intro k hk e
        rcases hinv2.1 _ (hmem k hk) e with hpre | ⟨k1, hk1, hk2, _, _⟩
        · have hfree : (heap_xy no_object no_object (c.obj.getD k 0)).owner
              = invalid_thread_id := by
            unfold heap_xy
            split_ifs <;> rfl
          exact hs (hpre.symm.trans hfree)
        · omega
      refine ⟨duo_cover c hc.1 (fun p => (h p).owner ≠ c.self) hnone, Or.inr ?_⟩
      refine ⟨c.obj.getD i 0, getD_duo c.obj hc.1 i, ?_⟩
      intro hfree
      have hstep := waiting_step_ret c ⟨h, f.ownships, f.pc, false⟩ i _ 1 hq
        (wake_free _ c.self CL_FALSE hfree)
      rw [hstep] at hpc1
      have h2 : Pc.scan 0 = Pc.waiting i := hpc1.trans hq
      cases h2
    | returned r => exact absurd hq (hpc r)
    | aborted =>
      exfalso
      have hsafe2 := hsafe.2
      dsimp only at hsafe2
      rw [hq] at hsafe2
      exact hsafe2

theorem Duo.not_halted (a b : pthread_t) (s : Duo) (hi : Duo.inv a b s) :
    s.halted = false := by
  obtain ⟨hA, hB, _⟩ := hi
  have hpa : s.a.pc ≠ Pc.aborted := by
    intro e
    have h2 := hA.1.2
    dsimp only at h2
    rw [e] at h2
    exact h2
  have hpb : s.b.pc ≠ Pc.aborted := by
    intro e
    have h2 := hB.1.2
    dsimp only at h2
    rw [e] at h2
    exact h2
  unfold Duo.halted
  simp [hpa, hpb]

/-- C14 (amended): thread `a` asks, blocking, for X then Y while thread `b`
asks, blocking, for Y then X, both objects live and unowned at the start and
both threads releasing the two objects after their call has returned. In every
interleaving: no assertion fails; a call that has returned has returned 1, and
at that moment its thread owns both objects; and the system is never
deadlocked: if neither thread can take a step that changes the state, then both
calls have returned 1 and both threads have released both objects. -/
theorem no_deadlock (a b : pthread_t) (x y : _cl_base_object) (ts : List Who)
    (hab : a ≠ b) (ha : a ≠ invalid_thread_id) (hb : b ≠ invalid_thread_id)
    (hx : CL_OBJECT_IS_VALID x = true) (hy : CL_OBJECT_IS_VALID y = true)
    (hxo : x.owner = invalid_thread_id) (hyo : y.owner = invalid_thread_id) :
    (Duo.run a b (Duo.start x y) ts).halted = false ∧
    (∀ r, (Duo.run a b (Duo.start x y) ts).a.pc = Pc.returned r →
      r = 1 ∧ ((Duo.run a b (Duo.start x y) ts).a.post = 0 →
        (Duo.run a b (Duo.start x y) ts).x.owner = a ∧
        (Duo.run a b (Duo.start x y) ts).y.owner = a)) ∧
    (∀ r, (Duo.run a b (Duo.start x y) ts).b.pc = Pc.returned r →
      r = 1 ∧ ((Duo.run a b (Duo.start x y) ts).b.post = 0 →
        (Duo.run a b (Duo.start x y) ts).x.owner = b ∧
        (Duo.run a b (Duo.start x y) ts).y.owner = b)) ∧
    (Duo.step a b (Duo.run a b (Duo.start x y) ts) Who.A = Duo.run a b (Duo.start x y) ts →
      Duo.step a b (Duo.run a b (Duo.start x y) ts) Who.B = Duo.run a b (Duo.start x y) ts →
      (Duo.run a b (Duo.start x y) ts).a.finished ∧
      (Duo.run a b (Duo.start x y) ts).b.finished) := by
  have hinv := Duo.inv_reachable a b x y ts hab ha hb hx hy hxo hyo
  generalize Duo.run a b (Duo.start x y) ts = s at hinv ⊢
  have hnh := Duo.not_halted a b s hinv
  obtain ⟨hA, hB, hd⟩ := hinv
  have hx0 : s.heap 0 = s.x := rfl
  have hy1 : s.heap 1 = s.y := rfl
  refine ⟨hnh, ?_, ?_, ?_⟩
  · intro r hr
    obtain ⟨h1, _, hown⟩ := hA.2.1 r hr
    refine ⟨h1, fun hp => ?_⟩
    have h0 := (hown 0 (by decide)).2 (by omega)
    have h1' := (hown 1 (by decide)).2 (by omega)
    exact ⟨h0, h1'⟩
  · intro r hr
    obtain ⟨h1, _, hown⟩ := hB.2.1 r hr
    refine ⟨h1, fun hp => ?_⟩
    have h0 := (hown 0 (by decide)).2 (by omega)
    have h1' := (hown 1 (by decide)).2 (by omega)
    exact ⟨h1', h0⟩
  · intro hsa hsb
    have hfa : (thread_step (call_A a) s.heap s.a).2 = s.a := by
      unfold Duo.step at hsa
      rw [hnh] at hsa
      exact congrArg Duo.a hsa
    have hfb : (thread_step (call_B b) s.heap s.b).2 = s.b := by
      unfold Duo.step at hsb
      rw [hnh] at hsb
      exact congrArg Duo.b hsb
    obtain ⟨⟨ha0, ha1⟩, hsA⟩ := stuck_thread (call_A a) s.heap s.a (duo_call_A a ha) hA hfa
    obtain ⟨⟨hb0, hb1⟩, hsB⟩ := stuck_thread (call_B b) s.heap s.b (duo_call_B b hb) hB hfb
    have hfree : ∀ p, (p = 0 ∨ p = 1) → (s.heap p).owner = invalid_thread_id := by
      intro p hp
      rcases hd p with e | e | e
      · exact e
      · rcases hp with hp | hp <;> subst hp
        · exact absurd e ha0
        · exact absurd e ha1
      · rcases hp with hp | hp <;> subst hp
        · exact absurd e hb0
        · exact absurd e hb1
    constructor
    · rcases hsA with hf | ⟨p, hp, hne⟩
      · exact hf
      · exact absurd (hfree p hp) hne
    · rcases hsB with hf | ⟨p, hp, hne⟩
      · exact hf
      · exact absurd (hfree p hp) hne

/-- Witness of C14 (amended): thread 1 runs its call alone on two free objects
and releases them, then thread 2 does the same; no assertion has failed and
both threads are through. -/
theorem no_deadlock_witness :
    (Duo.run 1 2 (Duo.start (heap_of (fun _ => invalid_thread_id) 0)
        (heap_of (fun _ => invalid_thread_id) 1))
      [.A, .A, .A, .A, .A, .B, .B, .B, .B, .B]).a.finished ∧
    (Duo.run 1 2 (Duo.start (heap_of (fun _ => invalid_thread_id) 0)
        (heap_of (fun _ => invalid_thread_id) 1))
      [.A, .A, .A, .A, .A, .B, .B, .B, .B, .B]).b.finished ∧
    (Duo.run 1 2 (Duo.start (heap_of (fun _ => invalid_thread_id) 0)
        (heap_of (fun _ => invalid_thread_id) 1))
      [.A, .A, .A, .A, .A, .B, .B, .B, .B, .B]).halted = false :=
  ⟨by decide, by decide,
   (no_deadlock 1 2 (heap_of (fun _ => invalid_thread_id) 0)
      (heap_of (fun _ => invalid_thread_id) 1)
      [.A, .A, .A, .A, .A, .B, .B, .B, .B, .B]
      (by decide) (by decide) (by decide) (by decide) (by decide) (by decide) (by decide)).1⟩

set_option maxRecDepth 1000000 in
theorem round_cycle :
    (Duo.round 1 2)^[11]
      (Duo.round 1 2 (Duo.start (heap_of (fun _ => invalid_thread_id) 0)
        (heap_of (fun _ => invalid_thread_id) 1)))
      = Duo.round 1 2 (Duo.start (heap_of (fun _ => invalid_thread_id) 0)
        (heap_of (fun _ => invalid_thread_id) 1)) := by
  decide

set_option maxRecDepth 1000000 in
theorem round_cycle_open :
    ∀ r, r < 11 →
      ((Duo.round 1 2)^[r]
        (Duo.round 1 2 (Duo.start (heap_of (fun _ => invalid_thread_id) 0)
          (heap_of (fun _ => invalid_thread_id) 1)))).a.has_returned = false ∧
      ((Duo.round 1 2)^[r]
        (Duo.round 1 2 (Duo.start (heap_of (fun _ => invalid_thread_id) 0)
          (heap_of (fun _ => invalid_thread_id) 1)))).b.has_returned = false := by
  decide

/-- C14 (counterexample): thread 1 asks, blocking, for X then Y and thread 2,
blocking, for Y then X, both objects live and unowned. Under the interleaving
that lets the two threads step in strict alternation, round after round, each
thread takes its first object, fails on the second, releases, wins the object
it waited for, and fails again: after no number of rounds has either call
returned. The run never terminates, although no thread is ever stuck. -/
theorem alternation_never_returns :
    CL_OBJECT_IS_VALID (heap_of (fun _ => invalid_thread_id) 0) = true ∧
    CL_OBJECT_IS_VALID (heap_of (fun _ => invalid_thread_id) 1) = true ∧
    (heap_of (fun _ => invalid_thread_id) 0).owner = invalid_thread_id ∧
    (heap_of (fun _ => invalid_thread_id) 1).owner = invalid_thread_id ∧
    ¬ ∃ n,
      ((Duo.round 1 2)^[n] (Duo.start (heap_of (fun _ => invalid_thread_id) 0)
        (heap_of (fun _ => invalid_thread_id) 1))).a.has_returned = true ∨
      ((Duo.round 1 2)^[n] (Duo.start (heap_of (fun _ => invalid_thread_id) 0)
        (heap_of (fun _ => invalid_thread_id) 1))).b.has_returned = true := by
  refine ⟨by decide, by decide, by decide, by decide, ?_⟩
  rintro ⟨n, hn⟩
  rcases n with _ | m
  · revert hn
    decide
  · rw [Function.iterate_succ_apply] at hn
    have hm : m = m % 11 + 11 * (m / 11) := by omega
    rw [hm, Function.iterate_add_apply, Function.iterate_mul,
      Function.iterate_fixed round_cycle] at hn
    have hsmall := round_cycle_open (m % 11) (Nat.mod_lt m (by decide))
    rw [hsmall.1, hsmall.2] at hn
    rcases hn with h | h <;> cases h

end Beignet
